import Mathlib

/-!
# Verification of the GewitterGefahr storm-tracking core

Shallow embedding of the storm-tracking engine of
`gewittergefahr/gg_utils/gridrad_tracking.py` (local-maximum detection,
spatial deduplication, temporal linking, track assembly) together with a
spec-modelled track reanalyzer (the `echo_top_tracking` reanalysis functions
are exercised by `echo_top_tracking_test.py` but their source module is not
part of this source tree).

Coordinates, field values and thresholds are embedded as rational numbers.
The source compares Euclidean distances `sqrt(dx^2 + dy^2)` (and implied
speeds `sqrt(dx^2 + dy^2) / time_diff`) against thresholds and against each
other; since `sqrt` is strictly monotone these comparisons are carried out
here on squared distances, conditioned on the sign of the time difference.
The bridging lemmas `distLT_sqrt_iff`, `speedLE_sqrt_iff` and
`speedGT_sqrt_iff` prove that the rational comparators agree with the real
`sqrt`-based comparisons of the source (with the Lean convention
`x / 0 = 0` for the zero time difference).
-/

namespace GGTracking

/- Batteries marks the rational-number operations `@[irreducible]`, which
blocks `decide` on the concrete fixture computations below; restore the
default reducibility inside this development. -/
attribute [local semireducible] Rat.mul Rat.add Rat.sub Rat.inv
  Rat.ofScientific

/-- Python list indexing: non-negative indices from the front, negative
indices within `[-len, -1]` wrap around to the back, anything else is an
IndexError (`none`). -/
def pyGet {α : Type} (l : List α) (k : ℤ) : Option α :=
  if 0 ≤ k then l.get? k.toNat
  else if 0 ≤ k + l.length then l.get? (k + l.length).toNat
  else none

/-- Index of the first minimum of `x :: xs` with respect to the Boolean
order `le` (the value returned by `numpy.argmin`): `best`/`bestVal` is the
running first minimum, `idx` the index of the head of the remaining list. -/
def argminAux (le : ℚ → ℚ → Bool) : List ℚ → ℕ → ℕ → ℚ → ℕ
  | [], _, best, _ => best
  | x :: xs, idx, best, bestVal =>
      if le bestVal x then argminAux le xs (idx + 1) best bestVal
      else argminAux le xs (idx + 1) idx x

/-- First index of the minimum of a list under `le` (0 for the empty list);
ties are resolved to the lowest index, as `numpy.argmin` does. -/
def argminIdx (le : ℚ → ℚ → Bool) : List ℚ → ℕ
  | [] => 0
  | x :: xs => argminAux le xs 1 0 x

/-- `distLT d2 m` decides `sqrt d2 < m` for a squared distance `d2 ≥ 0`
without leaving `ℚ`: true iff `m` is positive and `d2 < m ^ 2`
(lemma `distLT_sqrt_iff`). -/
def distLT (d2 m : ℚ) : Bool := decide (0 < m ∧ d2 < m ^ 2)

/-- `speedLE t a b` decides `sqrt a / t ≤ sqrt b / t` for squared distances
`a, b ≥ 0` without leaving `ℚ`: division by a positive `t` preserves the
order of the square roots, division by a negative `t` reverses it, and for
`t = 0` both sides are `0` (the Lean division convention; lemma
`speedLE_sqrt_iff`). -/
def speedLE (t a b : ℚ) : Bool :=
  if 0 < t then decide (a ≤ b)
  else if t < 0 then decide (b ≤ a)
  else true

/-- `speedGT t d2 L` decides `sqrt d2 / t > L` for a squared distance
`d2 ≥ 0` without leaving `ℚ` (lemma `speedGT_sqrt_iff`). -/
def speedGT (t d2 L : ℚ) : Bool :=
  if 0 < t then decide (L * t < 0 ∨ (L * t) ^ 2 < d2)
  else if t < 0 then decide (0 < L * t ∧ d2 < (L * t) ^ 2)
  else decide (L < 0)

/-! ## Spatial Deduplicator (`_remove_redundant_local_maxima`) -/

/-- The dictionary produced by `_find_local_maxima`: parallel arrays of
latitudes, longitudes and field values of the detected maxima. -/
structure LocalMaxLatLng where
  latitudesDeg : List ℚ
  longitudesDeg : List ℚ
  maxValues : List ℚ
  deriving DecidableEq, Repr

/-- The dictionary produced by `_remove_redundant_local_maxima`: the
surviving maxima with their projected x-y coordinates. -/
structure LocalMaxDict where
  latitudesDeg : List ℚ
  longitudesDeg : List ℚ
  xCoordsMetres : List ℚ
  yCoordsMetres : List ℚ
  maxValues : List ℚ
  deriving DecidableEq, Repr

/-- Squared Euclidean distance between maxima `i` and `k` in projected
coordinates (`these_distances_metres[k] ** 2` of the source's iteration
over `i`). -/
def dedupDistSq (xs ys : List ℚ) (i k : ℕ) : ℚ :=
  (xs.getD k 0 - xs.getD i 0) ^ 2 + (ys.getD k 0 - ys.getD i 0) ^ 2

/-- One iteration of the deduplicator's marking loop (source lines 216-222):
iteration `i` clears the keep-flag of every maximum `k` whose distance to
maximum `i` is strictly below the threshold.  The source excludes `k = i`
by setting `these_distances_metres[i] = inf` before comparing. -/
def dedupMarkStep (xs ys : List ℚ) (minDist : ℚ) (flags : List Bool) (i : ℕ) :
    List Bool :=
  (List.range flags.length).map fun k =>
    if k ≠ i ∧ distLT (dedupDistSq xs ys i k) minDist = true then false
    else flags.getD k true

/-- The keep-flags of `_remove_redundant_local_maxima`: start from all-true
and run the marking loop over every maximum `i` of the original input. -/
def removeRedundantKeepFlags (xs ys : List ℚ) (minDist : ℚ) : List Bool :=
  (List.range xs.length).foldl (dedupMarkStep xs ys minDist)
    (List.replicate xs.length true)

/-- `numpy.where(keep_max_flags)[0]`: the indices whose keep-flag survived. -/
def keepIndices (flags : List Bool) : List ℕ :=
  (List.range flags.length).filter fun k => flags.getD k false

/-- Fancy-indexing a parallel array by a list of kept indices. -/
def selectIdx (l : List ℚ) (idx : List ℕ) : List ℚ :=
  idx.map fun k => l.getD k 0

/-- `_remove_redundant_local_maxima` (source lines 181-231): project all
maxima to x-y with the injected projection, decide every keep-flag against
the original set simultaneously, and return the surviving rows of every
parallel array. -/
def removeRedundantLocalMaxima (d : LocalMaxLatLng)
    (proj : ℚ → ℚ → ℚ × ℚ) (minDist : ℚ) : LocalMaxDict :=
  let pts := d.latitudesDeg.zip d.longitudesDeg
  let xs := pts.map fun p => (proj p.1 p.2).1
  let ys := pts.map fun p => (proj p.1 p.2).2
  let idx := keepIndices (removeRedundantKeepFlags xs ys minDist)
  { latitudesDeg := selectIdx d.latitudesDeg idx
    longitudesDeg := selectIdx d.longitudesDeg idx
    xCoordsMetres := selectIdx xs idx
    yCoordsMetres := selectIdx ys idx
    maxValues := selectIdx d.maxValues idx }

/-! ## Temporal Linker (`_link_local_maxima_in_time`) -/

/-- The per-time-step dictionary as consumed by the linker: projected
coordinates of the maxima and the valid time. -/
structure LinkSnapshot where
  xCoordsMetres : List ℚ
  yCoordsMetres : List ℚ
  validTimeUnixSec : ℤ
  deriving DecidableEq, Repr

/-- Squared Euclidean distance between current maximum `i` and previous
maximum `j` (`these_distances_metres ** 2`, source lines 282-286). -/
def linkDistSq (cur prev : LinkSnapshot) (i j : ℕ) : ℚ :=
  (cur.xCoordsMetres.getD i 0 - prev.xCoordsMetres.getD j 0) ^ 2 +
    (cur.yCoordsMetres.getD i 0 - prev.yCoordsMetres.getD j 0) ^ 2

/-- `time_diff_seconds` (source lines 270-272), the divisor of every implied
speed `these_distances_m_s01 = these_distances_metres / time_diff_seconds`
(source line 288); the source never guards it against being zero or
negative. -/
def linkTimeDiff (cur prev : LinkSnapshot) : ℤ :=
  cur.validTimeUnixSec - prev.validTimeUnixSec

/-- Negation of the linker's early-return conditions (source lines 266-276):
linking is attempted iff a previous snapshot exists, both snapshots are
non-empty, and the time gap is not strictly greater than
`max_link_time_seconds`. -/
def linkGatePasses (cur : LinkSnapshot) (prev : Option LinkSnapshot)
    (maxLinkTime : ℤ) : Bool :=
  match prev with
  | none => false
  | some p =>
      decide (¬ (cur.xCoordsMetres.length = 0 ∨ p.xCoordsMetres.length = 0 ∨
        maxLinkTime < linkTimeDiff cur p))

/-- The row of squared distances from current maximum `i` to every previous
maximum; all of its entries share the divisor `time_diff_seconds`, so
comparisons between implied speeds are comparisons between these entries
conditioned on the sign of the time difference. -/
def linkSpeedsRow (cur prev : LinkSnapshot) (i : ℕ) : List ℚ :=
  (List.range prev.xCoordsMetres.length).map fun j => linkDistSq cur prev i j

/-- Source lines 281-295 for one current maximum `i`: find the previous
maximum of minimum implied speed (`numpy.min` / `numpy.argmin`, first index
on ties); if that minimum exceeds `max_link_distance_m_s01`, leave the
maximum unlinked (`-1`) with no recorded speed, otherwise record the
linked index and the minimum (kept as its squared-distance representative,
compared via `speedLE`/`speedGT` with the shared divisor). -/
def linkSelect (cur prev : LinkSnapshot) (t maxLinkDist : ℚ) (i : ℕ) :
    ℤ × Option ℚ :=
  let row := linkSpeedsRow cur prev i
  let jmin := argminIdx (speedLE t) row
  let minSq := row.getD jmin 0
  if speedGT t minSq maxLinkDist = true then (-1, none)
  else ((jmin : ℤ), some minSq)

/-- The `current_to_previous_indices` array as it stands after the
per-current-maximum loop, before conflict resolution. -/
def linkInitialIndices (cur prev : LinkSnapshot) (t maxLinkDist : ℚ) : List ℤ :=
  (List.range cur.xCoordsMetres.length).map fun i =>
    (linkSelect cur prev t maxLinkDist i).1

/-- The `current_to_previous_distances_m_s01` array (NaN, i.e. `none`, for
unlinked maxima), by squared-distance representative. -/
def linkRecordedSq (cur prev : LinkSnapshot) (t maxLinkDist : ℚ) :
    List (Option ℚ) :=
  (List.range cur.xCoordsMetres.length).map fun i =>
    (linkSelect cur prev t maxLinkDist i).2

/-- One iteration of the conflict-resolution loop (source lines 297-310)
for previous maximum `j`: if at least two current maxima selected `j`, the
one with the smallest recorded implied speed (first index on ties) keeps
the link and every other member of the group is reset to `-1`. -/
def resolveStep (t : ℚ) (dists : List (Option ℚ)) (out : List ℤ) (j : ℕ) :
    List ℤ :=
  let group := (List.range out.length).filter fun i =>
    decide (out.getD i (-1) = (j : ℤ))
  if group.length < 2 then out
  else
    let best := group.getD
      (argminIdx (speedLE t) (group.map fun i => (dists.getD i none).getD 0)) 0
    (List.range out.length).map fun i =>
      if out.getD i (-1) = (j : ℤ) ∧ i ≠ best then -1 else out.getD i (-1)

/-- `_link_local_maxima_in_time` (source lines 234-312). -/
def linkLocalMaximaInTime (cur : LinkSnapshot) (prev : Option LinkSnapshot)
    (maxLinkTime : ℤ) (maxLinkDist : ℚ) : List ℤ :=
  match prev with
  | none => List.replicate cur.xCoordsMetres.length (-1)
  | some p =>
      if linkGatePasses cur (some p) maxLinkTime = true then
        let t : ℚ := (linkTimeDiff cur p : ℤ)
        let init := linkInitialIndices cur p t maxLinkDist
        let dists := linkRecordedSq cur p t maxLinkDist
        (List.range p.xCoordsMetres.length).foldl (resolveStep t dists) init
      else List.replicate cur.xCoordsMetres.length (-1)

/-- The conflict group of previous maximum `j`: the current maxima whose
initial selection (`linkInitialIndices`) points to `j`
(`numpy.where(current_to_previous_indices == j)`, source line 299, read
off the array before the conflict-resolution loop mutates entries equal
to `j`). -/
def linkConflictGroup (cur prev : LinkSnapshot) (t maxL : ℚ) (j : ℕ) :
    List ℕ :=
  (List.range (linkInitialIndices cur prev t maxL).length).filter fun i =>
    decide ((linkInitialIndices cur prev t maxL).getD i (-1) = (j : ℤ))

/-! ## Track Assembler (`_create_storm_id`, `_local_maxima_to_storm_tracks`) -/

/-- Modelled from the spec: `time_conversion.time_to_spc_date_string` (the
`time_conversion` module is not part of this source tree).  An SPC date is
the 24-hour period from 1200 UTC to 1200 UTC (spec glossary); it is
represented by its day index, the floor of `(t - 43200) / 86400`. -/
def spcDateIndex (t : ℤ) : ℤ := (t - 43200) / 86400

/-- Modelled from the spec: `time_conversion.time_to_spc_date_unix_sec`,
the epoch time (1200 UTC) at which the SPC date of `t` begins. -/
def spcDateUnixSec (t : ℤ) : ℤ := 43200 + 86400 * spcDateIndex t

/-- A storm ID.  The source uses strings `'{0:06d}_{yyyymmdd}'`; since the
zero-padded format is injective in the (numeric id, SPC date) pair, the
pair itself is used here.  `blank` is the empty-string placeholder with
which `_local_maxima_to_storm_tracks` initialises each snapshot's
`storm_ids` list. -/
inductive StormId where
  | blank : StormId
  | mk (numericId : ℤ) (spcDate : ℤ) : StormId
  deriving DecidableEq, Repr

/-- `_create_storm_id` (source lines 437-461): if the SPC date of the storm
start time equals the previous SPC date, increment the numeric id,
otherwise reset it to 0.  The previous SPC date is `Option ℤ`: `none`
models the initial sentinel string `'00000101'`, which is never equal to
the SPC date of any input time. -/
def createStormId (stormStartTime prevNumericIdUsed : ℤ)
    (prevSpcDate : Option ℤ) : StormId × ℤ × ℤ :=
  let spc := spcDateIndex stormStartTime
  let numericId := if prevSpcDate = some spc then prevNumericIdUsed + 1 else 0
  (StormId.mk numericId spc, numericId, spc)

/-- One snapshot as consumed by `_local_maxima_to_storm_tracks`: parallel
arrays of positions plus the linker's `current_to_previous_indices`. -/
structure AsmSnapshot where
  latitudesDeg : List ℚ
  longitudesDeg : List ℚ
  validTimeUnixSec : ℤ
  currentToPrevIndices : List ℤ
  deriving DecidableEq, Repr

/-- The loop-carried `(prev_numeric_id_used, prev_spc_date_string)` pair of
`_local_maxima_to_storm_tracks` (initially `(-1, '00000101')`). -/
structure AsmState where
  prevNumericIdUsed : ℤ
  prevSpcDate : Option ℤ
  deriving DecidableEq, Repr

/-- The storm-id list that `local_max_dict_by_time[i - 1][STORM_IDS_KEY]`
denotes while snapshot `i` is being processed: for `i ≥ 1` the previous
snapshot's finished list; for `i = 0` Python's `[-1]` wraps to the *last*
snapshot, which has no `storm_ids` yet (KeyError, `none`) unless there is
only one snapshot, in which case it is the current, partially built list
itself (`selfPrev`). -/
def asmLookupPrev (selfPrev : Bool) (prevIds : Option (List StormId))
    (curIds : List StormId) : Option (List StormId) :=
  if selfPrev then some curIds else prevIds

/-- The inner loop of `_local_maxima_to_storm_tracks` (source lines
510-525) over the objects `j` of one snapshot: entry `-1` mints a new
storm id and advances the id state; any other entry inherits the id at
that Python index of the previous snapshot's list (negative entries in
`[-len, -2]` silently wrap around; entries beyond either end raise). -/
def asmObjLoop (selfPrev : Bool) (prevIds : Option (List StormId))
    (snapTime : ℤ) (cpi : List ℤ) :
    List ℕ → List StormId → AsmState →
      Except String (List StormId × AsmState)
  | [], curIds, st => .ok (curIds, st)
  | j :: rest, curIds, st =>
      match pyGet cpi (j : ℤ) with
      | none => .error "IndexError: current_to_previous_indices"
      | some e =>
          if e = -1 then
            let r := createStormId snapTime st.prevNumericIdUsed st.prevSpcDate
            asmObjLoop selfPrev prevIds snapTime cpi rest
              (curIds.set j r.1) ⟨r.2.1, some r.2.2⟩
          else
            match asmLookupPrev selfPrev prevIds curIds with
            | none => .error "KeyError: storm_ids"
            | some pids =>
                match pyGet pids e with
                | none => .error "IndexError: storm_ids"
                | some sid =>
                    asmObjLoop selfPrev prevIds snapTime cpi rest
                      (curIds.set j sid) st

/-- The outer loop of `_local_maxima_to_storm_tracks` over snapshots,
returning each snapshot's finished storm-id list.  After the id loop of a
snapshot, the source evaluates `these_times_unix_sec[0]` (line 532) to
build the SPC-date column, which raises an IndexError when the snapshot
has no maxima. -/
def asmRun : List AsmSnapshot → Option (List StormId) → Bool → AsmState →
    Except String (List (List StormId))
  | [], _, _, _ => .ok []
  | s :: rest, prevIds, selfPrev, st =>
      let n := s.latitudesDeg.length
      match asmObjLoop selfPrev prevIds s.validTimeUnixSec
          s.currentToPrevIndices (List.range n)
          (List.replicate n StormId.blank) st with
      | .error e => .error e
      | .ok r =>
          if n = 0 then .error "IndexError: empty snapshot"
          else
            match asmRun rest (some r.1) false r.2 with
            | .error e => .error e
            | .ok tbl => .ok (r.1 :: tbl)

/-- The storm-id assignment of `_local_maxima_to_storm_tracks`: one list of
storm ids per snapshot.  The first snapshot's previous-snapshot lookup
models Python's `[i - 1] = [-1]` wrap-around (see `asmLookupPrev`). -/
def assembleStormIds (snaps : List AsmSnapshot) :
    Except String (List (List StormId)) :=
  match snaps with
  | [] => .ok []
  | s :: rest => asmRun (s :: rest) none rest.isEmpty ⟨-1, none⟩

/-- The storm-object table built by `_local_maxima_to_storm_tracks`
(column-wise, as the source's `storm_object_dict`). -/
structure StormObjectTable where
  stormIds : List StormId
  timesUnixSec : List ℤ
  spcDatesUnixSec : List ℤ
  centroidLatsDeg : List ℚ
  centroidLngsDeg : List ℚ
  deriving DecidableEq, Repr

/-- `_local_maxima_to_storm_tracks` (source lines 464-555): assign the storm
ids, concatenate the per-snapshot columns and build the table
(`pandas.DataFrame.from_dict` raises when the columns do not all have the
same length).  Also returns the per-snapshot id lists, which the source
leaves behind in the mutated input dictionaries. -/
def localMaximaToStormTracks (snaps : List AsmSnapshot) :
    Except String (StormObjectTable × List (List StormId)) :=
  match assembleStormIds snaps with
  | .error e => .error e
  | .ok idsTable =>
      let allIds := idsTable.flatten
      let allTimes := (snaps.map fun s =>
        List.replicate s.latitudesDeg.length s.validTimeUnixSec).flatten
      let allSpc := (snaps.map fun s =>
        List.replicate s.latitudesDeg.length
          (spcDateUnixSec s.validTimeUnixSec)).flatten
      let allLats := (snaps.map fun s => s.latitudesDeg).flatten
      let allLngs := (snaps.map fun s => s.longitudesDeg).flatten
      if allTimes.length = allIds.length ∧ allSpc.length = allIds.length ∧
          allLats.length = allIds.length ∧ allLngs.length = allIds.length then
        .ok (⟨allIds, allTimes, allSpc, allLats, allLngs⟩, idsTable)
      else .error "ValueError: arrays must all be same length"

/-- Bound relating a storm id to the id state: every id assigned so far
either predates the state's SPC date or shares it with a numeric id not
exceeding the last one used.  A fresh id minted from the state therefore
differs from every id satisfying the bound. -/
def stBound (st : AsmState) (id : StormId) : Prop :=
  ∃ n d D : ℤ, id = .mk n d ∧ st.prevSpcDate = some D ∧
    (d < D ∨ (d = D ∧ n ≤ st.prevNumericIdUsed))

/-- The state's SPC date (if any) is at most `d`. -/
def dateLE (st : AsmState) (d : ℤ) : Prop :=
  ∀ D : ℤ, st.prevSpcDate = some D → D ≤ d

/-- Well-formed linkage of a snapshot list relative to the number of maxima
of the preceding snapshot (`none` for the first snapshot, which therefore
may only carry `-1` entries): parallel `current_to_previous_indices`, at
least one maximum per snapshot, and every entry either `-1` or a valid
non-negative index into the preceding snapshot. -/
inductive ValidChain : Option ℕ → List AsmSnapshot → Prop where
  | nil : ∀ o, ValidChain o []
  | cons : ∀ (o : Option ℕ) (s : AsmSnapshot) (rest : List AsmSnapshot),
      s.currentToPrevIndices.length = s.latitudesDeg.length →
      s.latitudesDeg.length ≠ 0 →
      (∀ e ∈ s.currentToPrevIndices, e = -1 ∨
        ∃ n : ℕ, o = some n ∧ 0 ≤ e ∧ e < (n : ℤ)) →
      ValidChain (some s.latitudesDeg.length) rest →
      ValidChain o (s :: rest)

/-- The id-assignment contract of the Track Assembler for a table `tbl`
holding one storm-id list per snapshot: the lists are parallel to the
snapshots' maxima; a maximum whose `current_to_previous_index` entry is a
valid non-negative index inherits exactly the id at that index of the
immediately preceding snapshot's list; and a maximum whose entry is `-1`
gets an id distinct from every id assigned earlier in the run (every id
of every earlier snapshot, and every earlier maximum of its own
snapshot). -/
def AsmAssignSpec (snaps : List AsmSnapshot)
    (tbl : List (List StormId)) : Prop :=
  tbl.map List.length = snaps.map (fun s => s.latitudesDeg.length) ∧
  (∀ i : ℕ, ∀ s : AsmSnapshot, ∀ ti tp : List StormId,
    snaps[i + 1]? = some s → tbl[i + 1]? = some ti → tbl[i]? = some tp →
    ∀ j, j < s.latitudesDeg.length →
    ∀ e : ℤ, pyGet s.currentToPrevIndices (j : ℤ) = some e → 0 ≤ e →
      ti.getD j .blank = tp.getD e.toNat .blank) ∧
  (∀ i : ℕ, ∀ s : AsmSnapshot, ∀ ti : List StormId,
    snaps[i]? = some s → tbl[i]? = some ti →
    ∀ j, j < s.latitudesDeg.length →
    pyGet s.currentToPrevIndices (j : ℤ) = some (-1) →
      (∀ i' : ℕ, ∀ ti' : List StormId, i' < i → tbl[i']? = some ti' →
        ti.getD j .blank ∉ ti') ∧
      (∀ j', j' < j → ti.getD j .blank ≠ ti.getD j' .blank))

/-! ## Grid Maximum Detector (`_find_local_maxima`) -/

/-- A radar grid: rows of cells, `none` for NaN (missing data). -/
abbrev RadarGrid : Type := List (List (Option ℚ))

/-- Value of the grid at integer coordinates, `none` outside the grid or at
a NaN cell. -/
def gridGet (g : RadarGrid) (r c : ℤ) : Option ℚ :=
  if 0 ≤ r ∧ 0 ≤ c then (g.getD r.toNat []).getD c.toNat none
  else none

/-- The non-NaN values in the square neighbourhood of half-width `hw`
centred on cell `(r, c)`, clipped to the grid. -/
def windowValues (g : RadarGrid) (hw : ℕ) (r c : ℕ) : List ℚ :=
  ((List.range (2 * hw + 1)).map fun dr =>
    ((List.range (2 * hw + 1)).map fun dc =>
      gridGet g ((r : ℤ) + dr - hw) ((c : ℤ) + dc - hw)).filterMap id).flatten

/-- Modelled from the spec: `dilation.dilate_2d_matrix` with
`percentile_level=100` (the `dilation` module is not part of this source
tree).  Spec section 4.1: a max-filter with a square neighbourhood of size
`2 * half_width + 1` centred on each cell, NaNs excluded; `none` when the
whole neighbourhood is NaN. -/
def dilatedAt (g : RadarGrid) (hw : ℕ) (r c : ℕ) : Option ℚ :=
  match windowValues g hw r c with
  | [] => none
  | x :: xs => some (xs.foldl max x)

/-- The comparison `abs(filtered_radar_matrix - radar_matrix) < TOLERANCE`
(source lines 156-157) at one cell; with NaN on either side the comparison
is false, so the cell is not reported. -/
def cellIsMax (g : RadarGrid) (hw : ℕ) (r c : ℕ) : Bool :=
  match (g.getD r []).getD c none, dilatedAt g hw r c with
  | some v, some f => decide (|f - v| < 1 / 1000000)
  | _, _ => false

/-- The cells reported by `_find_local_maxima` (source lines 152-159), in
row-major order (`numpy.where`).  The subsequent conversion to lat-long
and the descending sort by value (source lines 161-178) permute and
decorate this list but do not change which cells are reported. -/
def findLocalMaximaCells (g : RadarGrid) (hw : ℕ) : List (ℕ × ℕ) :=
  (List.range g.length).flatMap fun r =>
    ((List.range (g.getD r []).length).filter fun c => cellIsMax g hw r c).map
      fun c => (r, c)

/-! ## Track Reanalyzer / Joiner (spec-modelled)

The reanalysis functions (`_storm_objects_to_tracks`,
`_get_extrapolation_error`, `_find_nearby_tracks`, `_reanalyze_tracks`)
belong to the `echo_top_tracking` module, which is not part of this source
tree; only its unit tests are.  They are modelled from spec section 4.6,
with two choices pinned down by the repository's test fixtures
(`test_reanalyze_tracks`: reanalysing `STORM_OBJECT_TABLE_BEFORE_REANALYSIS`
leaves the surviving ids `{A, D, E}`): a merge relabels the *predecessor's*
rows to the later track's id, and a late track keeps absorbing
predecessors until none is eligible.  The great-circle extrapolation error
is modelled by its small-angle planar approximation (1 degree = 111120 m on
both axes), compared in squared form. -/

/-- A storm-object table for reanalysis: parallel arrays of storm id
(abstract label), valid time and centroid position. -/
structure ObjTable where
  stormIds : List ℕ
  timesUnixSec : List ℤ
  latsDeg : List ℚ
  lngsDeg : List ℚ
  deriving DecidableEq, Repr

/-- Row indices of the objects of one track. -/
def trackRowIndices (tbl : ObjTable) (id : ℕ) : List ℕ :=
  (List.range tbl.stormIds.length).filter fun i =>
    decide (tbl.stormIds.getD i (id + 1) = id)

/-- First index of the minimum of a list of integers (first row on ties,
as `numpy.argmin`). -/
def argminIntAux : List ℤ → ℕ → ℕ → ℤ → ℕ
  | [], _, best, _ => best
  | x :: xs, idx, best, bestVal =>
      if bestVal ≤ x then argminIntAux xs (idx + 1) best bestVal
      else argminIntAux xs (idx + 1) idx x

/-- First index of the maximum of a list of integers (first row on ties,
as `numpy.argmax`). -/
def argmaxIntAux : List ℤ → ℕ → ℕ → ℤ → ℕ
  | [], _, best, _ => best
  | x :: xs, idx, best, bestVal =>
      if x ≤ bestVal then argmaxIntAux xs (idx + 1) best bestVal
      else argmaxIntAux xs (idx + 1) idx x

/-- Modelled from the spec: one row of `_storm_objects_to_tracks` (spec
section 4.6, track summarization): the times and positions of the track's
objects at minimum and maximum valid time. -/
structure TrackRow where
  startTime : ℤ
  endTime : ℤ
  startLat : ℚ
  startLng : ℚ
  endLat : ℚ
  endLng : ℚ
  deriving DecidableEq, Repr

/-- Modelled from the spec: the summary row of one track. -/
def trackSummary (tbl : ObjTable) (id : ℕ) : TrackRow :=
  let rows := trackRowIndices tbl id
  let times := rows.map fun i => tbl.timesUnixSec.getD i 0
  let sIdx := rows.getD (match times with
    | [] => 0
    | x :: xs => argminIntAux xs 1 0 x) 0
  let eIdx := rows.getD (match times with
    | [] => 0
    | x :: xs => argmaxIntAux xs 1 0 x) 0
  { startTime := tbl.timesUnixSec.getD sIdx 0
    endTime := tbl.timesUnixSec.getD eIdx 0
    startLat := tbl.latsDeg.getD sIdx 0
    startLng := tbl.lngsDeg.getD sIdx 0
    endLat := tbl.latsDeg.getD eIdx 0
    endLng := tbl.lngsDeg.getD eIdx 0 }

/-- Modelled from the spec: `_get_extrapolation_error` (spec section 4.6),
in squared form.  The early track's velocity is its start-to-end
displacement over its duration (zero velocity for a single-position
track); it is extrapolated from its end position to the late track's start
time, and compared with the late track's actual start position under the
small-angle planar model of great-circle distance (1 degree = 111120 m). -/
def extrapErrorSq (tbl : ObjTable) (earlyId lateId : ℕ) : ℚ :=
  let e := trackSummary tbl earlyId
  let l := trackSummary tbl lateId
  let dur : ℚ := ((e.endTime - e.startTime : ℤ) : ℚ)
  let velLat := if dur = 0 then 0 else (e.endLat - e.startLat) / dur
  let velLng := if dur = 0 then 0 else (e.endLng - e.startLng) / dur
  let dt : ℚ := ((l.startTime - e.endTime : ℤ) : ℚ)
  ((e.endLat + velLat * dt - l.startLat) * 111120) ^ 2 +
    ((e.endLng + velLng * dt - l.startLng) * 111120) ^ 2

/-- Modelled from the spec: the eligibility test of `_find_nearby_tracks`
(spec section 4.6): the candidate's end time lies within
`max_join_time_seconds` strictly before the late track's start time, and
the extrapolation error, divided by that time gap, is an implied speed at
most `max_extrap_error_m_s01` (compared in squared form). -/
def nearbyOK (tbl : ObjTable) (maxJoin : ℤ) (maxExtrap : ℚ)
    (lateId earlyId : ℕ) : Bool :=
  let e := trackSummary tbl earlyId
  let l := trackSummary tbl lateId
  let gap := l.startTime - e.endTime
  decide (earlyId ≠ lateId ∧ trackRowIndices tbl earlyId ≠ [] ∧
    0 < gap ∧ gap ≤ maxJoin ∧
    extrapErrorSq tbl earlyId lateId ≤ (maxExtrap * ((gap : ℤ) : ℚ)) ^ 2)

/-- Modelled from the spec: `_find_nearby_tracks` for one late track:
among eligible predecessors, the one of lowest extrapolation error (first
on ties), or `none`. -/
def findNearbyTrack (tbl : ObjTable) (ids : List ℕ) (lateId : ℕ)
    (maxJoin : ℤ) (maxExtrap : ℚ) : Option ℕ :=
  let cands := ids.filter fun e => nearbyOK tbl maxJoin maxExtrap lateId e
  match cands with
  | [] => none
  | _ => some (cands.getD
      (argminIdx (fun a b => decide (a ≤ b))
        (cands.map fun e => extrapErrorSq tbl e lateId)) 0)

/-- Relabel every row of track `fromId` to `toId` (the in-place id
rewrite of a merge). -/
def relabel (tbl : ObjTable) (fromId toId : ℕ) : ObjTable :=
  { tbl with stormIds := tbl.stormIds.map fun x =>
      if x = fromId then toId else x }

/-- Modelled from the spec: the merge loop of `_reanalyze_tracks` for one
late track: keep absorbing the best eligible predecessor (relabelling its
rows to the late track's id, which moves the late track's start time
earlier) until none is eligible.  Each absorption removes one id, so the
number of ids bounds the iteration (`fuel`). -/
def absorbLoop (maxJoin : ℤ) (maxExtrap : ℚ) (ids : List ℕ) (lateId : ℕ) :
    ℕ → ObjTable → ObjTable
  | 0, tbl => tbl
  | fuel + 1, tbl =>
      match findNearbyTrack tbl ids lateId maxJoin maxExtrap with
      | none => tbl
      | some e => absorbLoop maxJoin maxExtrap ids lateId fuel
          (relabel tbl e lateId)

/-- The distinct storm ids of a table in order of first appearance (the
track-table row order of `_storm_objects_to_tracks`). -/
def uniqueIds (l : List ℕ) : List ℕ :=
  l.foldl (fun acc x => if x ∈ acc then acc else acc ++ [x]) []

/-- Modelled from the spec: `_reanalyze_tracks` (spec section 4.6): walk
the track table in row order; every track that still owns rows absorbs its
eligible predecessors. -/
def reanalyzeTracks (maxJoin : ℤ) (maxExtrap : ℚ) (tbl : ObjTable) :
    ObjTable :=
  let ids := uniqueIds tbl.stormIds
  ids.foldl (fun t lateId =>
    if trackRowIndices t lateId = [] then t
    else absorbLoop maxJoin maxExtrap ids lateId ids.length t) tbl

/-! ## Concrete fixtures -/

/-- Modelled from the spec: the injected map projection
`project_latlng_to_xy` (spec section 6, an external collaborator; the
source's is an azimuthal equidistant projection), instantiated for the
test fixtures by its small-angle rational model centred on
(35 deg N, 95 deg E): one degree of latitude is 60 * 1852 = 111120 metres
(the source's `DEGREES_LAT_TO_METRES`), one degree of longitude 91029
metres (111120 times a rational approximation of the cosine of 35 deg). -/
def specProjection (lat lng : ℚ) : ℚ × ℚ :=
  ((lng - 95) * 91029, (lat - 35) * 111120)

/-- `LOCAL_MAX_DICT_LATLNG` of `echo_top_tracking_test.py` (lines 35-43):
two maxima sorted descending by value, 0.04 degrees of latitude apart. -/
def locMaxFixture : LocalMaxLatLng :=
  { latitudesDeg := [34.96, 35]
    longitudesDeg := [95.1, 95.1]
    maxValues := [30, 6] }

/-- `STORM_OBJECT_TABLE_BEFORE_REANALYSIS` of `echo_top_tracking_test.py`
(lines 349-360), with the string ids A-E encoded as 0-4. -/
def reanalysisFixture : ObjTable :=
  { stormIds := [0, 0, 1, 1, 2, 2, 3, 3, 4, 4]
    timesUnixSec := [6, 7, 3, 4, 0, 1, 0, 1, 4, 5]
    latsDeg := [53.5, 53.5, 53.5, 53.5, 53.5, 53.5, 53.5, 53.5, 47.6, 47.6]
    lngsDeg :=
      [113.5, 113.6, 113.2, 113.3, 112.9, 113, 113.2, 113.3, 307.3, 307.3] }

/-- A three-track table on which `_reanalyze_tracks` is not idempotent
(`maxJoin = 2`, `maxExtrap = 1`): track 0 (times 6-7) finds no eligible
predecessor in the first pass; track 1 (times 3-4, stationary) then
absorbs track 2 (times 0-1), which changes track 1's velocity estimate so
that in a second pass track 0 absorbs it. -/
def nonIdemFixture : ObjTable :=
  { stormIds := [0, 0, 1, 1, 2, 2]
    timesUnixSec := [6, 7, 3, 4, 0, 1]
    latsDeg := [0, 0, 0, 0, 0, 0]
    lngsDeg := [1, 1, 0, 0, -2, -4/3] }

/-- The previous snapshot of the linker overlap fixture. -/
def linkPrevFix : LinkSnapshot := ⟨[0, 9000], [0, -4444], 1516860600⟩

/-- The current snapshot of the linker overlap fixture: both current
maxima initially select previous maximum 0, and current maximum 1 (at the
previous maximum's exact position) wins the conflict. -/
def linkCurFix : LinkSnapshot := ⟨[10, 0], [-10, 0], 1516860900⟩

/-- A two-maximum first snapshot for the assembler fixtures. -/
def asmSnapA : AsmSnapshot := ⟨[1, 2], [10, 20], 100000, [-1, -1]⟩

/-- A one-maximum second snapshot whose link entry `-2` wraps around. -/
def asmSnapWrap : AsmSnapshot := ⟨[3], [30], 100300, [-2]⟩

/-- A one-maximum second snapshot whose link entry `5` is out of range. -/
def asmSnapOut : AsmSnapshot := ⟨[3], [30], 100300, [5]⟩

/-- A one-maximum second snapshot linked to previous maximum 0. -/
def asmSnapLink : AsmSnapshot := ⟨[3], [30], 100300, [0]⟩

/-- A snapshot with no maxima. -/
def asmSnapEmpty : AsmSnapshot := ⟨[], [], 0, []⟩

/-- A later one-maximum snapshot linked to nothing (entry `-1`). -/
def asmSnapSolo : AsmSnapshot := ⟨[1], [1], 300, [-1]⟩

/-! ## Bridging lemmas: the rational comparators against `Real.sqrt` -/

/-- `distLT` agrees with the source's `sqrt`-then-compare on squared
distances. -/
theorem distLT_sqrt_iff (d2 m : ℚ) :
    distLT d2 m = true ↔ Real.sqrt (d2 : ℝ) < (m : ℝ) := by
  unfold distLT
  rw [decide_eq_true_eq]
  constructor
  · rintro ⟨hm, hd⟩
    have hm' : (0 : ℝ) < (m : ℝ) := by exact_mod_cast hm
    rw [Real.sqrt_lt' hm']
    exact_mod_cast hd
  · intro hlt
    have hm' : (0 : ℝ) < (m : ℝ) := lt_of_le_of_lt (Real.sqrt_nonneg _) hlt
    refine ⟨by exact_mod_cast hm', ?_⟩
    have hd := (Real.sqrt_lt' hm').mp hlt
    exact_mod_cast hd

/-- `speedLE` agrees with the source's comparison of two implied speeds
`sqrt a / t` and `sqrt b / t`. -/
theorem speedLE_sqrt_iff (t a b : ℚ) (ha : 0 ≤ a) (hb : 0 ≤ b) :
    speedLE t a b = true ↔
      Real.sqrt (a : ℝ) / (t : ℝ) ≤ Real.sqrt (b : ℝ) / (t : ℝ) := by
  unfold speedLE
  rcases lt_trichotomy (0 : ℚ) t with ht | ht | ht
  · have ht' : (0 : ℝ) < (t : ℝ) := by exact_mod_cast ht
    rw [if_pos ht, decide_eq_true_eq, div_le_div_iff_of_pos_right ht',
      Real.sqrt_le_sqrt_iff (by exact_mod_cast hb)]
    exact ⟨fun h => by exact_mod_cast h, fun h => by exact_mod_cast h⟩
  · rw [if_neg (by rw [← ht]; exact lt_irrefl 0),
      if_neg (by rw [← ht]; exact lt_irrefl 0)]
    have h0 : (t : ℝ) = 0 := by exact_mod_cast ht.symm
    simp [h0]
  · have ht' : (t : ℝ) < 0 := by exact_mod_cast ht
    rw [if_neg (by exact not_lt_of_gt ht), if_pos ht, decide_eq_true_eq,
      div_le_div_right_of_neg ht',
      Real.sqrt_le_sqrt_iff (by exact_mod_cast ha)]
    exact ⟨fun h => by exact_mod_cast h, fun h => by exact_mod_cast h⟩

/-- `speedGT` agrees with the source's threshold test
`sqrt d2 / t > max_link_distance_m_s01`. -/
theorem speedGT_sqrt_iff (t d2 L : ℚ) :
    speedGT t d2 L = true ↔ (L : ℝ) < Real.sqrt (d2 : ℝ) / (t : ℝ) := by
  unfold speedGT
  rcases lt_trichotomy (0 : ℚ) t with ht | ht | ht
  · have ht' : (0 : ℝ) < (t : ℝ) := by exact_mod_cast ht
    rw [if_pos ht, decide_eq_true_eq, lt_div_iff₀ ht']
    constructor
    · rintro (h | h)
      · have h' : (L : ℝ) * t < 0 := by exact_mod_cast h
        exact lt_of_lt_of_le h' (Real.sqrt_nonneg _)
      · rcases le_or_lt 0 (L * t) with hLt | hLt
        · have hLt' : (0 : ℝ) ≤ (L : ℝ) * t := by exact_mod_cast hLt
          have h' : ((L : ℝ) * t) ^ 2 < (d2 : ℝ) := by exact_mod_cast h
          exact (Real.lt_sqrt hLt').mpr h'
        · have h' : (L : ℝ) * t < 0 := by exact_mod_cast hLt
          exact lt_of_lt_of_le h' (Real.sqrt_nonneg _)
    · intro h
      rcases lt_or_le (L * t) 0 with hLt | hLt
      · exact Or.inl hLt
      · refine Or.inr ?_
        have hLt' : (0 : ℝ) ≤ (L : ℝ) * t := by exact_mod_cast hLt
        have h' := (Real.lt_sqrt hLt').mp h
        exact_mod_cast h'
  · rw [if_neg (by rw [← ht]; exact lt_irrefl 0),
      if_neg (by rw [← ht]; exact lt_irrefl 0), decide_eq_true_eq]
    have h0 : (t : ℝ) = 0 := by exact_mod_cast ht.symm
    rw [h0, div_zero]
    exact ⟨fun h => by exact_mod_cast h, fun h => by exact_mod_cast h⟩
  · have ht' : (t : ℝ) < 0 := by exact_mod_cast ht
    rw [if_neg (by exact not_lt_of_gt ht), if_pos ht, decide_eq_true_eq,
      lt_div_iff_of_neg ht']
    constructor
    · rintro ⟨hpos, hd⟩
      have hpos' : (0 : ℝ) < (L : ℝ) * t := by exact_mod_cast hpos
      have hd' : (d2 : ℝ) < ((L : ℝ) * t) ^ 2 := by exact_mod_cast hd
      exact (Real.sqrt_lt' hpos').mpr hd'
    · intro h
      have hpos' : (0 : ℝ) < (L : ℝ) * t :=
        lt_of_le_of_lt (Real.sqrt_nonneg _) h
      have hd' := (Real.sqrt_lt' hpos').mp h
      exact ⟨by exact_mod_cast hpos', by exact_mod_cast hd'⟩

/-! ## Deduplicator lemmas and claims C3, C4, C5 -/

theorem getD_map_range {α : Type} (f : ℕ → α) (d : α) (n k : ℕ) (h : k < n) :
    ((List.range n).map f).getD k d = f k := by
  rw [List.getD_eq_getElem _ d (by simpa using h)]
  simp

theorem dedupMarkStep_length (xs ys : List ℚ) (m : ℚ) (flags : List Bool)
    (i : ℕ) : (dedupMarkStep xs ys m flags i).length = flags.length := by
  simp [dedupMarkStep]

theorem dedupMarkStep_getD (xs ys : List ℚ) (m : ℚ) (flags : List Bool)
    (i k : ℕ) (hk : k < flags.length) :
    (dedupMarkStep xs ys m flags i).getD k false =
      if k ≠ i ∧ distLT (dedupDistSq xs ys i k) m = true then false
      else flags.getD k false := by
  unfold dedupMarkStep
  rw [getD_map_range _ _ _ _ hk]
  rw [List.getD_eq_getElem flags true hk, List.getD_eq_getElem flags false hk]

theorem foldl_markStep_length (xs ys : List ℚ) (m : ℚ) (l : List ℕ)
    (flags : List Bool) :
    (l.foldl (dedupMarkStep xs ys m) flags).length = flags.length := by
  induction l generalizing flags with
  | nil => rfl
  | cons i l ih => rw [List.foldl_cons, ih, dedupMarkStep_length]

theorem foldl_markStep_getD (xs ys : List ℚ) (m : ℚ) (l : List ℕ)
    (flags : List Bool) (k : ℕ) (hk : k < flags.length) :
    ((l.foldl (dedupMarkStep xs ys m) flags).getD k false = true ↔
      (flags.getD k false = true ∧
        ∀ i ∈ l, ¬ (k ≠ i ∧ distLT (dedupDistSq xs ys i k) m = true))) := by
  induction l generalizing flags with
  | nil => simp
  | cons i l ih =>
    rw [List.foldl_cons,
      ih _ (by rw [dedupMarkStep_length]; exact hk),
      dedupMarkStep_getD xs ys m flags i k hk]
    by_cases h : k ≠ i ∧ distLT (dedupDistSq xs ys i k) m = true
    · rw [if_pos h]
      constructor
      · rintro ⟨hc, -⟩; cases hc
      · rintro ⟨-, hall⟩; exact absurd h (hall i (List.mem_cons_self i l))
    · rw [if_neg h]
      constructor
      · rintro ⟨hf, hall⟩
        refine ⟨hf, fun i' hi' => ?_⟩
        rcases List.mem_cons.mp hi' with rfl | hi'
        · exact h
        · exact hall i' hi'
      · rintro ⟨hf, hall⟩
        exact ⟨hf, fun i' hi' => hall i' (List.mem_cons_of_mem i hi')⟩

theorem removeRedundantKeepFlags_length (xs ys : List ℚ) (m : ℚ) :
    (removeRedundantKeepFlags xs ys m).length = xs.length := by
  unfold removeRedundantKeepFlags
  rw [foldl_markStep_length]
  simp

theorem removeRedundantKeepFlags_getD_iff (xs ys : List ℚ) (m : ℚ) (k : ℕ)
    (hk : k < xs.length) :
    ((removeRedundantKeepFlags xs ys m).getD k false = true ↔
      ∀ i < xs.length, i ≠ k → distLT (dedupDistSq xs ys i k) m = false) := by
  unfold removeRedundantKeepFlags
  rw [foldl_markStep_getD xs ys m _ _ k (by simpa using hk),
    List.getD_eq_getElem _ false (by simpa using hk)]
  simp only [List.getElem_replicate, true_and]
  constructor
  · intro hall i hi hik
    have h := hall i (List.mem_range.mpr hi)
    rcases Bool.eq_false_or_eq_true (distLT (dedupDistSq xs ys i k) m) with
      ht | hf
    · exact absurd ⟨Ne.symm hik, ht⟩ h
    · exact hf
  · rintro hall i hi ⟨hki, ht⟩
    have h := hall i (List.mem_range.mp hi) (Ne.symm hki)
    rw [h] at ht
    cases ht

theorem mem_keepIndices_iff (flags : List Bool) (k : ℕ) :
    k ∈ keepIndices flags ↔ k < flags.length ∧ flags.getD k false = true := by
  unfold keepIndices
  rw [List.mem_filter, List.mem_range]

/-- C3: the Spatial Deduplicator keeps a maximum iff no other maximum of
the original input set lies strictly closer than
`min_distance_between_maxima_metres` in projected x-y space; survival is
decided simultaneously against the original set (the keep-flag of `k`
quantifies over all other maxima `i` of the input, not over survivors). -/
theorem claimC3_dedup_keep_iff (xs ys : List ℚ) (m : ℚ) (k : ℕ) :
    k ∈ keepIndices (removeRedundantKeepFlags xs ys m) ↔
      (k < xs.length ∧ ∀ i < xs.length, i ≠ k →
        ¬ (Real.sqrt ((dedupDistSq xs ys i k : ℚ) : ℝ) < (m : ℝ))) := by
  rw [mem_keepIndices_iff, removeRedundantKeepFlags_length]
  constructor
  · rintro ⟨hk, hf⟩
    rw [removeRedundantKeepFlags_getD_iff xs ys m k hk] at hf
    refine ⟨hk, fun i hi hik => ?_⟩
    have h := hf i hi hik
    rw [← distLT_sqrt_iff]
    simp [h]
  · rintro ⟨hk, hall⟩
    refine ⟨hk, ?_⟩
    rw [removeRedundantKeepFlags_getD_iff xs ys m k hk]
    intro i hi hik
    have h := hall i hi hik
    rw [← distLT_sqrt_iff] at h
    simp only [Bool.not_eq_true] at h
    exact h

/-- Survivor pair separation: any two distinct kept maxima are at least
the threshold apart. -/
theorem keep_pairwise_far (xs ys : List ℚ) (m : ℚ) (kp kq : ℕ)
    (hp : kp ∈ keepIndices (removeRedundantKeepFlags xs ys m))
    (hq : kq ∈ keepIndices (removeRedundantKeepFlags xs ys m))
    (hne : kp ≠ kq) :
    (m : ℝ) ≤ Real.sqrt ((dedupDistSq xs ys kq kp : ℚ) : ℝ) := by
  rw [mem_keepIndices_iff, removeRedundantKeepFlags_length] at hp hq
  obtain ⟨hpl, hpf⟩ := hp
  obtain ⟨hql, _⟩ := hq
  rw [removeRedundantKeepFlags_getD_iff xs ys m kp hpl] at hpf
  have h := hpf kq hql (Ne.symm hne)
  have hnot : ¬ (Real.sqrt ((dedupDistSq xs ys kq kp : ℚ) : ℝ) < (m : ℝ)) := by
    rw [← distLT_sqrt_iff]
    simp [h]
  exact not_lt.mp hnot

theorem selectIdx_getD (l : List ℚ) (idx : List ℕ) (p : ℕ)
    (hp : p < idx.length) :
    (selectIdx l idx).getD p 0 = l.getD (idx.getD p 0) 0 := by
  unfold selectIdx
  rw [List.getD_eq_getElem _ 0 (by simpa using hp), List.getElem_map,
    List.getD_eq_getElem idx 0 hp]

theorem map_range_zip3 (la lb lc : List ℚ) (hb : lb.length = la.length)
    (hc : lc.length = la.length) :
    (List.range la.length).map
        (fun k => (la.getD k 0, (lb.getD k 0, lc.getD k 0))) =
      la.zip (lb.zip lc) := by
  apply List.ext_getElem
  · simp [hb, hc]
  · intro n h1 h2
    simp only [List.getElem_map, List.getElem_range, List.getElem_zip]
    have hn : n < la.length := by simpa using h1
    rw [List.getD_eq_getElem la 0 hn,
      List.getD_eq_getElem lb 0 (by rw [hb]; exact hn),
      List.getD_eq_getElem lc 0 (by rw [hc]; exact hn)]

/-- C4: after the Spatial Deduplicator runs, every pair of distinct
surviving maxima is at least `min_distance_between_maxima_metres` apart in
projected x-y space, and the output is a subset of the input (a sublist of
its rows) with latitude, longitude and value preserved exactly. -/
theorem claimC4_dedup_invariant (d : LocalMaxLatLng) (proj : ℚ → ℚ → ℚ × ℚ)
    (m : ℚ)
    (hlng : d.longitudesDeg.length = d.latitudesDeg.length)
    (hval : d.maxValues.length = d.latitudesDeg.length) :
    (∀ p q : ℕ,
      p < (removeRedundantLocalMaxima d proj m).xCoordsMetres.length →
      q < (removeRedundantLocalMaxima d proj m).xCoordsMetres.length →
      p ≠ q →
      (m : ℝ) ≤ Real.sqrt
        ((((removeRedundantLocalMaxima d proj m).xCoordsMetres.getD p 0 -
            (removeRedundantLocalMaxima d proj m).xCoordsMetres.getD q 0) ^ 2 +
          ((removeRedundantLocalMaxima d proj m).yCoordsMetres.getD p 0 -
            (removeRedundantLocalMaxima d proj m).yCoordsMetres.getD q 0) ^ 2 :
          ℚ) : ℝ)) ∧
    List.Sublist
      ((removeRedundantLocalMaxima d proj m).latitudesDeg.zip
        ((removeRedundantLocalMaxima d proj m).longitudesDeg.zip
          (removeRedundantLocalMaxima d proj m).maxValues))
      (d.latitudesDeg.zip (d.longitudesDeg.zip d.maxValues)) := by
  set pts := d.latitudesDeg.zip d.longitudesDeg with hpts
  set xs := pts.map (fun p => (proj p.1 p.2).1) with hxs
  set ys := pts.map (fun p => (proj p.1 p.2).2) with hys
  set idx := keepIndices (removeRedundantKeepFlags xs ys m) with hidx
  have hout : removeRedundantLocalMaxima d proj m =
      { latitudesDeg := selectIdx d.latitudesDeg idx
        longitudesDeg := selectIdx d.longitudesDeg idx
        xCoordsMetres := selectIdx xs idx
        yCoordsMetres := selectIdx ys idx
        maxValues := selectIdx d.maxValues idx } := rfl
  rw [hout]
  dsimp only
  constructor
  · intro p q hp hq hpq
    have hpl : p < idx.length := by simpa [selectIdx] using hp
    have hql : q < idx.length := by simpa [selectIdx] using hq
    have hkp : idx.getD p 0 ∈ idx := by
      rw [List.getD_eq_getElem idx 0 hpl]
      exact List.getElem_mem _
    have hkq : idx.getD q 0 ∈ idx := by
      rw [List.getD_eq_getElem idx 0 hql]
      exact List.getElem_mem _
    have hnodup : idx.Nodup := by
      rw [hidx]
      unfold keepIndices
      exact (List.nodup_range _).filter _
    have hne : idx.getD p 0 ≠ idx.getD q 0 := by
      rw [List.getD_eq_getElem idx 0 hpl, List.getD_eq_getElem idx 0 hql]
      intro hEq
      exact hpq (hnodup.getElem_inj_iff.mp hEq)
    have hfar := keep_pairwise_far xs ys m (idx.getD p 0) (idx.getD q 0)
      hkp hkq hne
    rw [selectIdx_getD xs idx p hpl, selectIdx_getD xs idx q hql,
      selectIdx_getD ys idx p hpl, selectIdx_getD ys idx q hql]
    exact hfar
  · have hlen_pts : pts.length = d.latitudesDeg.length := by
      rw [hpts, List.length_zip, hlng, min_self]
    have hlen_xs : xs.length = d.latitudesDeg.length := by
      rw [hxs, List.length_map, hlen_pts]
    have hsub : List.Sublist idx
        (List.range (removeRedundantKeepFlags xs ys m).length) := by
      rw [hidx]
      unfold keepIndices
      exact List.filter_sublist _
    have hmap := hsub.map
      (fun k => (d.latitudesDeg.getD k 0,
        (d.longitudesDeg.getD k 0, d.maxValues.getD k 0)))
    rw [removeRedundantKeepFlags_length, hlen_xs,
      map_range_zip3 d.latitudesDeg d.longitudesDeg d.maxValues hlng hval]
      at hmap
    have hzip : (selectIdx d.latitudesDeg idx).zip
        ((selectIdx d.longitudesDeg idx).zip (selectIdx d.maxValues idx)) =
        idx.map (fun k => (d.latitudesDeg.getD k 0,
          (d.longitudesDeg.getD k 0, d.maxValues.getD k 0))) := by
      unfold selectIdx
      rw [List.zip_map', List.zip_map']
    rw [hzip]
    exact hmap

/-- Witness for C4 at the two-maximum fixture with threshold 1000. -/
theorem claimC4_dedup_invariant_witness :
    locMaxFixture.longitudesDeg.length = locMaxFixture.latitudesDeg.length ∧
    locMaxFixture.maxValues.length = locMaxFixture.latitudesDeg.length ∧
    ((∀ p q : ℕ,
      p < (removeRedundantLocalMaxima locMaxFixture specProjection
        1000).xCoordsMetres.length →
      q < (removeRedundantLocalMaxima locMaxFixture specProjection
        1000).xCoordsMetres.length →
      p ≠ q →
      ((1000 : ℚ) : ℝ) ≤ Real.sqrt
        ((((removeRedundantLocalMaxima locMaxFixture specProjection
              1000).xCoordsMetres.getD p 0 -
            (removeRedundantLocalMaxima locMaxFixture specProjection
              1000).xCoordsMetres.getD q 0) ^ 2 +
          ((removeRedundantLocalMaxima locMaxFixture specProjection
              1000).yCoordsMetres.getD p 0 -
            (removeRedundantLocalMaxima locMaxFixture specProjection
              1000).yCoordsMetres.getD q 0) ^ 2 : ℚ) : ℝ)) ∧
    List.Sublist
      ((removeRedundantLocalMaxima locMaxFixture specProjection
          1000).latitudesDeg.zip
        ((removeRedundantLocalMaxima locMaxFixture specProjection
            1000).longitudesDeg.zip
          (removeRedundantLocalMaxima locMaxFixture specProjection
            1000).maxValues))
      (locMaxFixture.latitudesDeg.zip
        (locMaxFixture.longitudesDeg.zip locMaxFixture.maxValues))) :=
  ⟨by decide, by decide,
    claimC4_dedup_invariant locMaxFixture specProjection 1000
      (by decide) (by decide)⟩

/-- C5 counterexample: on the two-maximum fixture (values 30 and 6 at
latitudes 34.96 and 35, longitude 95.1) with
`min_distance_between_maxima_metres = 10000`, the deduplicator of the
source tree drops BOTH maxima (each lies about 4.4 km, hence strictly
within 10 km, of the other and the keep-decision is simultaneous), so it
does not keep exactly one maximum, and its output differs from
`LOCAL_MAX_DICT_LARGE_DISTANCE` (the second point alone). -/
theorem claimC5_counterexample :
    (removeRedundantLocalMaxima locMaxFixture specProjection
      10000).maxValues = [] ∧
    removeRedundantLocalMaxima locMaxFixture specProjection 10000 ≠
      { latitudesDeg := [35], longitudesDeg := [95.1],
        xCoordsMetres := [9102.9], yCoordsMetres := [0],
        maxValues := [6] } := by
  constructor
  · decide
  · decide

/-- C5 amended: with `min_distance = 10000` the deduplicator keeps NO
maximum of the fixture (both are dropped, since each lies strictly within
10 km of the other); with `min_distance = 1000` it keeps both, with every
field preserved. -/
theorem claimC5_amended :
    removeRedundantLocalMaxima locMaxFixture specProjection 10000 =
      { latitudesDeg := [], longitudesDeg := [], xCoordsMetres := [],
        yCoordsMetres := [], maxValues := [] } ∧
    removeRedundantLocalMaxima locMaxFixture specProjection 1000 =
      { latitudesDeg := [34.96, 35], longitudesDeg := [95.1, 95.1],
        xCoordsMetres := [9102.9, 9102.9], yCoordsMetres := [-4444.8, 0],
        maxValues := [30, 6] } := by
  constructor
  · decide
  · decide

/-! ## Temporal Linker lemmas and claims C1, C6, C10 -/

theorem mem_eq_of_length_lt_two {α : Type} {G : List α} (hg : G.length < 2)
    {a b : α} (ha : a ∈ G) (hb : b ∈ G) : a = b := by
  match G, hg with
  | [], _ => cases ha
  | [x], _ =>
      rw [List.mem_singleton.mp ha, List.mem_singleton.mp hb]
  | x :: y :: rest, hg =>
      simp only [List.length_cons] at hg
      omega

theorem getD_replicate_neg (n i : ℕ) :
    (List.replicate n (-1 : ℤ)).getD i (-1) = -1 := by
  rcases lt_or_le i n with h | h
  · rw [List.getD_eq_getElem _ _ (by simpa using h)]
    simp
  · rw [List.getD_eq_default _ _ (by simpa using h)]

theorem resolveStep_length (t : ℚ) (dists : List (Option ℚ)) (out : List ℤ)
    (j : ℕ) : (resolveStep t dists out j).length = out.length := by
  unfold resolveStep
  dsimp only
  split
  · rfl
  · simp

theorem resolveStep_getD_cases (t : ℚ) (dists : List (Option ℚ))
    (out : List ℤ) (j i : ℕ) :
    (resolveStep t dists out j).getD i (-1) = out.getD i (-1) ∨
      (resolveStep t dists out j).getD i (-1) = -1 := by
  unfold resolveStep
  dsimp only
  split
  · left; rfl
  · rcases lt_or_le i out.length with hi | hi
    · rw [getD_map_range _ _ _ _ hi]
      split
      · right; rfl
      · left; rfl
    · rw [List.getD_eq_default _ _ (by simpa using hi)]
      right; rfl

theorem resolveStep_unique (t : ℚ) (dists : List (Option ℚ)) (out : List ℤ)
    (j : ℕ) (i1 i2 : ℕ) :
    (resolveStep t dists out j).getD i1 (-1) = (j : ℤ) →
    (resolveStep t dists out j).getD i2 (-1) = (j : ℤ) → i1 = i2 := by
  unfold resolveStep
  dsimp only
  split
  next hg =>
    intro h1 h2
    have hi1 : i1 < out.length := by
      by_contra hle
      rw [List.getD_eq_default _ _ (by simpa using not_lt.mp hle)] at h1
      omega
    have hi2 : i2 < out.length := by
      by_contra hle
      rw [List.getD_eq_default _ _ (by simpa using not_lt.mp hle)] at h2
      omega
    have hm1 : i1 ∈ (List.range out.length).filter fun i =>
        decide (out.getD i (-1) = (j : ℤ)) :=
      List.mem_filter.mpr ⟨List.mem_range.mpr hi1, by simpa using h1⟩
    have hm2 : i2 ∈ (List.range out.length).filter fun i =>
        decide (out.getD i (-1) = (j : ℤ)) :=
      List.mem_filter.mpr ⟨List.mem_range.mpr hi2, by simpa using h2⟩
    exact mem_eq_of_length_lt_two hg hm1 hm2
  next hg =>
    intro h1 h2
    have hi1 : i1 < out.length := by
      by_contra hle
      rw [List.getD_eq_default _ _ (by simpa using not_lt.mp hle)] at h1
      omega
    have hi2 : i2 < out.length := by
      by_contra hle
      rw [List.getD_eq_default _ _ (by simpa using not_lt.mp hle)] at h2
      omega
    rw [getD_map_range _ _ _ _ hi1] at h1
    rw [getD_map_range _ _ _ _ hi2] at h2
    split at h1
    next => omega
    next hc1 =>
      split at h2
      next => omega
      next hc2 =>
        have e1 := not_not.mp (not_and.mp hc1 h1)
        have e2 := not_not.mp (not_and.mp hc2 h2)
        rw [e1, e2]

theorem foldl_resolve_length (t : ℚ) (dists : List (Option ℚ)) (js : List ℕ)
    (out : List ℤ) :
    (js.foldl (resolveStep t dists) out).length = out.length := by
  induction js generalizing out with
  | nil => rfl
  | cons j js ih => rw [List.foldl_cons, ih, resolveStep_length]

theorem foldl_resolve_getD_cases (t : ℚ) (dists : List (Option ℚ))
    (js : List ℕ) (out : List ℤ) (i : ℕ) :
    (js.foldl (resolveStep t dists) out).getD i (-1) = out.getD i (-1) ∨
      (js.foldl (resolveStep t dists) out).getD i (-1) = -1 := by
  induction js generalizing out with
  | nil => left; rfl
  | cons j js ih =>
    rw [List.foldl_cons]
    rcases ih (resolveStep t dists out j) with h | h
    · rcases resolveStep_getD_cases t dists out j i with h' | h'
      · left; rw [h, h']
      · right; rw [h, h']
    · right; exact h

theorem foldl_resolve_stable (t : ℚ) (dists : List (Option ℚ)) (js : List ℕ)
    (out : List ℤ) (i : ℕ) (v : ℤ) (hv : v ≠ -1) :
    (js.foldl (resolveStep t dists) out).getD i (-1) = v →
      out.getD i (-1) = v := by
  intro h
  rcases foldl_resolve_getD_cases t dists js out i with h' | h'
  · rw [← h', h]
  · rw [h'] at h
    exact absurd h.symm hv

theorem foldl_resolve_preserve_unique (t : ℚ) (dists : List (Option ℚ))
    (js : List ℕ) (out : List ℤ) (v : ℤ) (hv : v ≠ -1)
    (h : ∀ i1 i2 : ℕ, out.getD i1 (-1) = v → out.getD i2 (-1) = v → i1 = i2) :
    ∀ i1 i2 : ℕ, (js.foldl (resolveStep t dists) out).getD i1 (-1) = v →
      (js.foldl (resolveStep t dists) out).getD i2 (-1) = v → i1 = i2 := by
  intro i1 i2 h1 h2
  exact h i1 i2 (foldl_resolve_stable t dists js out i1 v hv h1)
    (foldl_resolve_stable t dists js out i2 v hv h2)

theorem foldl_resolve_unique (t : ℚ) (dists : List (Option ℚ)) (js : List ℕ)
    (out : List ℤ) :
    ∀ j ∈ js, ∀ i1 i2 : ℕ,
      (js.foldl (resolveStep t dists) out).getD i1 (-1) = (j : ℤ) →
      (js.foldl (resolveStep t dists) out).getD i2 (-1) = (j : ℤ) →
      i1 = i2 := by
  induction js generalizing out with
  | nil => intro j hj; cases hj
  | cons j0 js ih =>
    intro j hj i1 i2
    rw [List.foldl_cons]
    rcases List.mem_cons.mp hj with rfl | hj'
    · exact foldl_resolve_preserve_unique t dists js _ (j : ℤ) (by omega)
        (resolveStep_unique t dists out j) i1 i2
    · exact ih _ j hj' i1 i2

theorem argminAux_mem_or (le : ℚ → ℚ → Bool) (xs : List ℚ)
    (idx best : ℕ) (bv : ℚ) :
    argminAux le xs idx best bv = best ∨
      (idx ≤ argminAux le xs idx best bv ∧
        argminAux le xs idx best bv < idx + xs.length) := by
  induction xs generalizing idx best bv with
  | nil => left; rfl
  | cons x xs ih =>
    simp only [argminAux]
    split
    · rcases ih (idx + 1) best bv with h | h
      · left; exact h
      · right
        simp only [List.length_cons]
        omega
    · rcases ih (idx + 1) idx x with h | h
      · right
        rw [h]
        simp only [List.length_cons]
        omega
      · right
        simp only [List.length_cons]
        omega

theorem argminIdx_lt_length (le : ℚ → ℚ → Bool) (x : ℚ) (xs : List ℚ) :
    argminIdx le (x :: xs) < (x :: xs).length := by
  simp only [argminIdx, List.length_cons]
  rcases argminAux_mem_or le xs 1 0 x with h | h
  · rw [h]; omega
  · omega

theorem mem_getD {α : Type} (l : List α) (j : ℕ) (d : α)
    (h : j < l.length) : l.getD j d ∈ l := by
  rw [List.getD_eq_getElem l d h]
  exact List.getElem_mem _

theorem getD_of_mem {α : Type} {l : List α} {a : α} (d : α) (h : a ∈ l) :
    ∃ j, j < l.length ∧ l.getD j d = a := by
  obtain ⟨j, hj, he⟩ := List.mem_iff_getElem.mp h
  exact ⟨j, hj, by rw [List.getD_eq_getElem l d hj]; exact he⟩

theorem speedLE_trans (t a b c : ℚ) (h1 : speedLE t a b = true)
    (h2 : speedLE t b c = true) : speedLE t a c = true := by
  unfold speedLE at h1 h2 ⊢
  by_cases ht : 0 < t
  · rw [if_pos ht] at h1 h2 ⊢
    simp only [decide_eq_true_eq] at h1 h2 ⊢
    exact le_trans h1 h2
  · by_cases htn : t < 0
    · rw [if_neg ht, if_pos htn] at h1 h2 ⊢
      simp only [decide_eq_true_eq] at h1 h2 ⊢
      exact le_trans h2 h1
    · rw [if_neg ht, if_neg htn]

theorem speedLE_total (t a b : ℚ) :
    speedLE t a b = true ∨ speedLE t b a = true := by
  unfold speedLE
  by_cases ht : 0 < t
  · rw [if_pos ht, if_pos ht]
    simp only [decide_eq_true_eq]
    exact le_total a b
  · by_cases htn : t < 0
    · rw [if_neg ht, if_pos htn, if_neg ht, if_pos htn]
      simp only [decide_eq_true_eq]
      exact le_total b a
    · left
      rw [if_neg ht, if_neg htn]

theorem argminAux_spec (le : ℚ → ℚ → Bool)
    (htrans : ∀ a b c : ℚ, le a b = true → le b c = true → le a c = true)
    (htot : ∀ a b : ℚ, le a b = true ∨ le b a = true) :
    ∀ (xs : List ℚ) (idx best : ℕ) (bv : ℚ),
      ∃ vm : ℚ,
        ((argminAux le xs idx best bv = best ∧ vm = bv) ∨
          ∃ k : ℕ, k < xs.length ∧ argminAux le xs idx best bv = idx + k ∧
            vm = xs.getD k 0) ∧
        le vm bv = true ∧ ∀ x ∈ xs, le vm x = true := by
  intro xs
  induction xs with
  | nil =>
    intro idx best bv
    refine ⟨bv, Or.inl ⟨rfl, rfl⟩, ?_, ?_⟩
    · rcases htot bv bv with h | h
      · exact h
      · exact h
    · intro x hx
      cases hx
  | cons x xs ih =>
    intro idx best bv
    simp only [argminAux]
    by_cases hle : le bv x = true
    · rw [if_pos hle]
      obtain ⟨vm, hidx, hbv, hall⟩ := ih (idx + 1) best bv
      refine ⟨vm, ?_, hbv, ?_⟩
      · rcases hidx with ⟨h1, h2⟩ | ⟨k, hk, h1, h2⟩
        · exact Or.inl ⟨h1, h2⟩
        · refine Or.inr ⟨k + 1, ?_, ?_, ?_⟩
          · simp only [List.length_cons]
            omega
          · rw [h1]
            omega
          · simpa using h2
      · intro y hy
        rcases List.mem_cons.mp hy with rfl | hy'
        · exact htrans vm bv _ hbv hle
        · exact hall y hy'
    · rw [if_neg hle]
      have hxbv : le x bv = true := by
        rcases htot bv x with h | h
        · exact absurd h hle
        · exact h
      obtain ⟨vm, hidx, hbv2, hall⟩ := ih (idx + 1) idx x
      refine ⟨vm, ?_, htrans vm x bv hbv2 hxbv, ?_⟩
      · rcases hidx with ⟨h1, h2⟩ | ⟨k, hk, h1, h2⟩
        · refine Or.inr ⟨0, by simp, ?_, by simpa using h2⟩
          rw [h1]
          omega
        · refine Or.inr ⟨k + 1, ?_, ?_, ?_⟩
          · simp only [List.length_cons]
            omega
          · rw [h1]
            omega
          · simpa using h2
      · intro y hy
        rcases List.mem_cons.mp hy with rfl | hy'
        · exact hbv2
        · exact hall y hy'

theorem argminIdx_min (le : ℚ → ℚ → Bool)
    (htrans : ∀ a b c : ℚ, le a b = true → le b c = true → le a c = true)
    (htot : ∀ a b : ℚ, le a b = true ∨ le b a = true)
    (x : ℚ) (xs : List ℚ) :
    ∀ k, k < (x :: xs).length →
      le ((x :: xs).getD (argminIdx le (x :: xs)) 0) ((x :: xs).getD k 0)
        = true := by
  intro k hk
  obtain ⟨vm, hidx, hbv, hall⟩ := argminAux_spec le htrans htot xs 1 0 x
  have hvm : (x :: xs).getD (argminIdx le (x :: xs)) 0 = vm := by
    simp only [argminIdx]
    rcases hidx with ⟨h1, h2⟩ | ⟨k', hk', h1, h2⟩
    · rw [h1, h2]
      simp
    · rw [h1, h2, Nat.add_comm 1 k']
      simp
  rw [hvm]
  cases k with
  | zero => simpa using hbv
  | succ k' =>
    have hk2 : k' < xs.length := by
      simp only [List.length_cons] at hk
      omega
    have hgd : (x :: xs).getD (k' + 1) 0 = xs.getD k' 0 := by simp
    rw [hgd]
    exact hall _ (mem_getD xs k' 0 hk2)

theorem argminIdx_lt_length_of_ne (le : ℚ → ℚ → Bool) (xs : List ℚ)
    (h : xs ≠ []) : argminIdx le xs < xs.length := by
  cases xs with
  | nil => exact absurd rfl h
  | cons x xs => exact argminIdx_lt_length le x xs

theorem argminIdx_min_of_ne (le : ℚ → ℚ → Bool)
    (htrans : ∀ a b c : ℚ, le a b = true → le b c = true → le a c = true)
    (htot : ∀ a b : ℚ, le a b = true ∨ le b a = true)
    (xs : List ℚ) (h : xs ≠ []) :
    ∀ k, k < xs.length →
      le (xs.getD (argminIdx le xs) 0) (xs.getD k 0) = true := by
  cases xs with
  | nil => exact absurd rfl h
  | cons x xs => exact argminIdx_min le htrans htot x xs

theorem getD_map {α β : Type} (f : α → β) (l : List α) (k : ℕ) (d : β)
    (d' : α) (h : k < l.length) :
    (l.map f).getD k d = f (l.getD k d') := by
  rw [List.getD_eq_getElem _ d (by simpa using h), List.getD_eq_getElem _ d' h]
  simp

theorem resolveStep_getD_ne (t : ℚ) (dists : List (Option ℚ)) (out : List ℤ)
    (j : ℕ) (i : ℕ) (h : out.getD i (-1) ≠ (j : ℤ)) :
    (resolveStep t dists out j).getD i (-1) = out.getD i (-1) := by
  unfold resolveStep
  dsimp only
  split
  · rfl
  · rcases lt_or_le i out.length with hi | hi
    · rw [getD_map_range _ _ _ _ hi]
      rw [if_neg (fun hc => h hc.1)]
    · rw [List.getD_eq_default _ _ (by simpa using hi),
        List.getD_eq_default _ _ (by simpa using hi)]

theorem resolveStep_resolves (t : ℚ) (dists : List (Option ℚ))
    (out : List ℤ) (j : ℕ) (G : List ℕ)
    (hGdef : G = (List.range out.length).filter fun i =>
      decide (out.getD i (-1) = (j : ℤ)))
    (hG : 2 ≤ G.length) :
    ∃ s ∈ G,
      (resolveStep t dists out j).getD s (-1) = (j : ℤ) ∧
      (∀ i ∈ G, i ≠ s → (resolveStep t dists out j).getD i (-1) = -1) ∧
      (∀ i ∈ G, speedLE t ((dists.getD s none).getD 0)
        ((dists.getD i none).getD 0) = true) := by
  have hne : G ≠ [] := by
    intro h
    rw [h] at hG
    simp at hG
  have hmem_iff : ∀ i, i ∈ G ↔
      i < out.length ∧ out.getD i (-1) = (j : ℤ) := by
    intro i
    rw [hGdef, List.mem_filter, List.mem_range]
    simp
  have hmaplen : (G.map fun i => (dists.getD i none).getD 0).length =
      G.length := by simp
  have hmne : (G.map fun i => (dists.getD i none).getD 0) ≠ [] := by
    intro h
    exact hne (by simpa using h)
  have hmlt : argminIdx (speedLE t)
      (G.map fun i => (dists.getD i none).getD 0) < G.length := by
    rw [← hmaplen]
    exact argminIdx_lt_length_of_ne _ _ hmne
  refine ⟨G.getD (argminIdx (speedLE t)
      (G.map fun i => (dists.getD i none).getD 0)) 0,
    mem_getD G _ 0 hmlt, ?_, ?_, ?_⟩
  · have hs := (hmem_iff _).mp (mem_getD G (argminIdx (speedLE t)
      (G.map fun i => (dists.getD i none).getD 0)) 0 hmlt)
    unfold resolveStep
    dsimp only
    rw [← hGdef]
    rw [if_neg (by omega)]
    rw [getD_map_range _ _ _ _ hs.1]
    rw [if_neg (fun hc => hc.2 rfl)]
    exact hs.2
  · intro i hi hne2
    have hii := (hmem_iff i).mp hi
    unfold resolveStep
    dsimp only
    rw [← hGdef]
    rw [if_neg (by omega)]
    rw [getD_map_range _ _ _ _ hii.1]
    rw [if_pos ⟨hii.2, hne2⟩]
  · intro i hi
    obtain ⟨k, hk, hki⟩ := getD_of_mem 0 hi
    have h1 : (dists.getD (G.getD (argminIdx (speedLE t)
        (G.map fun i => (dists.getD i none).getD 0)) 0) none).getD 0 =
        (G.map fun i => (dists.getD i none).getD 0).getD
          (argminIdx (speedLE t)
            (G.map fun i => (dists.getD i none).getD 0)) 0 :=
      (getD_map (fun i => (dists.getD i none).getD 0) G _ 0 0 hmlt).symm
    have h2 : (dists.getD i none).getD 0 =
        (G.map fun i => (dists.getD i none).getD 0).getD k 0 := by
      rw [getD_map (fun i => (dists.getD i none).getD 0) G k 0 0 hk, hki]
    rw [h1, h2]
    exact argminIdx_min_of_ne (speedLE t) (speedLE_trans t)
      (speedLE_total t) (G.map fun i => (dists.getD i none).getD 0) hmne
      k (by rw [hmaplen]; exact hk)

theorem foldl_resolve_keep (t : ℚ) (dists : List (Option ℚ)) :
    ∀ (js : List ℕ) (out : List ℤ) (i j : ℕ), j ∉ js →
      out.getD i (-1) = (j : ℤ) →
      (js.foldl (resolveStep t dists) out).getD i (-1) = (j : ℤ) := by
  intro js
  induction js with
  | nil => intro out i j _ h; exact h
  | cons j0 js ih =>
    intro out i j hj h
    rw [List.foldl_cons]
    have hne : j ≠ j0 := fun he => hj (he ▸ List.mem_cons_self j0 js)
    exact ih (resolveStep t dists out j0) i j
      (fun hm => hj (List.mem_cons_of_mem j0 hm))
      (by
        rw [resolveStep_getD_ne t dists out j0 i
          (by rw [h]; exact_mod_cast hne)]
        exact h)

theorem foldl_resolve_keep_neg (t : ℚ) (dists : List (Option ℚ)) :
    ∀ (js : List ℕ) (out : List ℤ) (i : ℕ),
      out.getD i (-1) = -1 →
      (js.foldl (resolveStep t dists) out).getD i (-1) = -1 := by
  intro js
  induction js with
  | nil => intro out i h; exact h
  | cons j0 js ih =>
    intro out i h
    rw [List.foldl_cons]
    exact ih (resolveStep t dists out j0) i
      (by
        rw [resolveStep_getD_ne t dists out j0 i (by rw [h]; omega)]
        exact h)

theorem foldl_resolve_resolves (t : ℚ) (dists : List (Option ℚ)) :
    ∀ (js : List ℕ) (out : List ℤ) (j : ℕ),
      j ∈ js → js.Pairwise (· ≠ ·) →
      2 ≤ ((List.range out.length).filter fun i =>
        decide (out.getD i (-1) = (j : ℤ))).length →
      ∃ s ∈ (List.range out.length).filter fun i =>
          decide (out.getD i (-1) = (j : ℤ)),
        (js.foldl (resolveStep t dists) out).getD s (-1) = (j : ℤ) ∧
        (∀ i ∈ (List.range out.length).filter fun i =>
            decide (out.getD i (-1) = (j : ℤ)),
          i ≠ s → (js.foldl (resolveStep t dists) out).getD i (-1) = -1) ∧
        (∀ i ∈ (List.range out.length).filter fun i =>
            decide (out.getD i (-1) = (j : ℤ)),
          speedLE t ((dists.getD s none).getD 0)
            ((dists.getD i none).getD 0) = true) := by
  intro js
  induction js with
  | nil => intro out j hj; cases hj
  | cons j0 js ih =>
    intro out j hj hpw hG
    rw [List.foldl_cons]
    rcases List.mem_cons.mp hj with heq | hj'
    · rw [heq] at hG ⊢
      obtain ⟨s, hsmem, hskeep, hlose, hspeed⟩ :=
        resolveStep_resolves t dists out j0
          ((List.range out.length).filter fun i =>
            decide (out.getD i (-1) = (j0 : ℤ))) rfl hG
      have hj0tail : j0 ∉ js :=
        fun hm => (List.pairwise_cons.mp hpw).1 j0 hm rfl
      refine ⟨s, hsmem, ?_, ?_, hspeed⟩
      · exact foldl_resolve_keep t dists js _ s j0 hj0tail hskeep
      · intro i hi hne2
        exact foldl_resolve_keep_neg t dists js _ i (hlose i hi hne2)
    · have hne : j0 ≠ j := (List.pairwise_cons.mp hpw).1 j hj'
      have hlen1 : (resolveStep t dists out j0).length = out.length :=
        resolveStep_length t dists out j0
      have hval_iff : ∀ i,
          (resolveStep t dists out j0).getD i (-1) = (j : ℤ) ↔
          out.getD i (-1) = (j : ℤ) := by
        intro i
        constructor
        · intro h
          rcases resolveStep_getD_cases t dists out j0 i with h' | h'
          · rw [← h', h]
          · rw [h'] at h
            exfalso
            omega
        · intro h
          rw [resolveStep_getD_ne t dists out j0 i (by
            rw [h]
            intro hc
            exact hne (by exact_mod_cast hc.symm))]
          exact h
      have hfilter : ((List.range (resolveStep t dists out j0).length).filter
            fun i => decide ((resolveStep t dists out j0).getD i (-1) =
              (j : ℤ))) =
          ((List.range out.length).filter fun i =>
            decide (out.getD i (-1) = (j : ℤ))) := by
        rw [hlen1]
        apply List.filter_congr
        intro i _
        simp only [decide_eq_decide]
        exact hval_iff i
      obtain ⟨s, hsmem, hskeep, hlose, hspeed⟩ :=
        ih (resolveStep t dists out j0) j hj'
          (List.pairwise_cons.mp hpw).2 (by rw [hfilter]; exact hG)
      rw [hfilter] at hsmem hlose hspeed
      exact ⟨s, hsmem, hskeep, hlose, hspeed⟩

theorem linkInitialIndices_length (cur prev : LinkSnapshot) (t maxL : ℚ) :
    (linkInitialIndices cur prev t maxL).length =
      cur.xCoordsMetres.length := by
  simp [linkInitialIndices]

theorem linkInitialIndices_getD_cases (cur prev : LinkSnapshot) (t maxL : ℚ)
    (i : ℕ) (hprev : prev.xCoordsMetres.length ≠ 0) :
    (linkInitialIndices cur prev t maxL).getD i (-1) = -1 ∨
      ∃ j : ℕ, j < prev.xCoordsMetres.length ∧
        (linkInitialIndices cur prev t maxL).getD i (-1) = (j : ℤ) := by
  rcases lt_or_le i cur.xCoordsMetres.length with hi | hi
  · unfold linkInitialIndices
    rw [getD_map_range _ _ _ _ hi]
    unfold linkSelect
    dsimp only
    split
    · left; rfl
    · right
      refine ⟨argminIdx (speedLE t) (linkSpeedsRow cur prev i), ?_, rfl⟩
      have hlen : (linkSpeedsRow cur prev i).length =
          prev.xCoordsMetres.length := by simp [linkSpeedsRow]
      cases hrow : linkSpeedsRow cur prev i with
      | nil =>
          rw [hrow] at hlen
          exact absurd hlen.symm hprev
      | cons x xs =>
          have hb := argminIdx_lt_length (speedLE t) x xs
          rw [hrow] at hlen
          rw [← hlen]
          exact hb
  · left
    rw [List.getD_eq_default]
    rw [linkInitialIndices_length]
    exact hi

/-- C1: the array returned by the Temporal Linker is injective on its
non-negative entries; conflict resolution only ever resets entries to
`-1` (so a losing conflicting maximum is never reassigned to any other
previous maximum); and whenever at least two current maxima initially
select the same previous maximum `j`, the surviving member `s` of the
conflict group -- the one that keeps the link to `j` while every other
member is reset to `-1` -- has the smallest implied speed of the group
(its recorded squared distance is `speedLE`-below every group member's,
i.e. its implied speed over the shared time gap is least; ties go to the
lowest index, as `numpy.argmin` does). -/
theorem claimC1_link_injective (cur : LinkSnapshot) (prev : Option LinkSnapshot)
    (maxT : ℤ) (maxL : ℚ) :
    (∀ i1 i2 : ℕ,
      (linkLocalMaximaInTime cur prev maxT maxL).getD i1 (-1) =
        (linkLocalMaximaInTime cur prev maxT maxL).getD i2 (-1) →
      (linkLocalMaximaInTime cur prev maxT maxL).getD i1 (-1) ≠ -1 →
      i1 = i2) ∧
    (∀ p : LinkSnapshot, prev = some p → ∀ i : ℕ,
      (linkLocalMaximaInTime cur prev maxT maxL).getD i (-1) = -1 ∨
      (linkLocalMaximaInTime cur prev maxT maxL).getD i (-1) =
        (linkInitialIndices cur p ((linkTimeDiff cur p : ℤ) : ℚ)
          maxL).getD i (-1)) ∧
    (∀ p : LinkSnapshot, prev = some p →
      linkGatePasses cur (some p) maxT = true →
      ∀ j : ℕ,
      2 ≤ (linkConflictGroup cur p ((linkTimeDiff cur p : ℤ) : ℚ)
        maxL j).length →
      ∃ s ∈ linkConflictGroup cur p ((linkTimeDiff cur p : ℤ) : ℚ) maxL j,
        (linkLocalMaximaInTime cur prev maxT maxL).getD s (-1) = (j : ℤ) ∧
        (∀ i ∈ linkConflictGroup cur p ((linkTimeDiff cur p : ℤ) : ℚ)
            maxL j,
          i ≠ s →
            (linkLocalMaximaInTime cur prev maxT maxL).getD i (-1) = -1) ∧
        (∀ i ∈ linkConflictGroup cur p ((linkTimeDiff cur p : ℤ) : ℚ)
            maxL j,
          speedLE ((linkTimeDiff cur p : ℤ) : ℚ)
            (((linkRecordedSq cur p ((linkTimeDiff cur p : ℤ) : ℚ)
              maxL).getD s none).getD 0)
            (((linkRecordedSq cur p ((linkTimeDiff cur p : ℤ) : ℚ)
              maxL).getD i none).getD 0) = true)) := by
  match prev with
  | none =>
      refine ⟨?_, ?_, ?_⟩
      · intro i1 i2 _ hne
        exact absurd (getD_replicate_neg _ i1) hne
      · intro p hp
        cases hp
      · intro p hp
        cases hp
  | some p =>
      by_cases hgate : linkGatePasses cur (some p) maxT = true
      · have hrepr : linkLocalMaximaInTime cur (some p) maxT maxL =
            (List.range p.xCoordsMetres.length).foldl
              (resolveStep ((linkTimeDiff cur p : ℤ) : ℚ)
                (linkRecordedSq cur p ((linkTimeDiff cur p : ℤ) : ℚ) maxL))
              (linkInitialIndices cur p ((linkTimeDiff cur p : ℤ) : ℚ)
                maxL) := by
          simp only [linkLocalMaximaInTime]
          rw [if_pos hgate]
        have hnp : p.xCoordsMetres.length ≠ 0 := by
          simp only [linkGatePasses, decide_eq_true_eq, not_or] at hgate
          exact hgate.2.1
        rw [hrepr]
        refine ⟨?_, ?_, ?_⟩
        · intro i1 i2 heq hne
          rcases linkInitialIndices_getD_cases cur p
              ((linkTimeDiff cur p : ℤ) : ℚ) maxL i1 hnp with hc | ⟨j, hj, hcj⟩
          · exact absurd (by
              rcases foldl_resolve_getD_cases
                  ((linkTimeDiff cur p : ℤ) : ℚ)
                  (linkRecordedSq cur p ((linkTimeDiff cur p : ℤ) : ℚ) maxL)
                  (List.range p.xCoordsMetres.length)
                  (linkInitialIndices cur p ((linkTimeDiff cur p : ℤ) : ℚ)
                    maxL) i1 with h' | h'
              · rw [h', hc]
              · exact h') hne
          · have h1 : ((List.range p.xCoordsMetres.length).foldl
                (resolveStep ((linkTimeDiff cur p : ℤ) : ℚ)
                  (linkRecordedSq cur p ((linkTimeDiff cur p : ℤ) : ℚ) maxL))
                (linkInitialIndices cur p ((linkTimeDiff cur p : ℤ) : ℚ)
                  maxL)).getD i1 (-1) = (j : ℤ) := by
              rcases foldl_resolve_getD_cases
                  ((linkTimeDiff cur p : ℤ) : ℚ)
                  (linkRecordedSq cur p ((linkTimeDiff cur p : ℤ) : ℚ) maxL)
                  (List.range p.xCoordsMetres.length)
                  (linkInitialIndices cur p ((linkTimeDiff cur p : ℤ) : ℚ)
                    maxL) i1 with h' | h'
              · rw [h', hcj]
              · exact absurd h' hne
            have h2 : ((List.range p.xCoordsMetres.length).foldl
                (resolveStep ((linkTimeDiff cur p : ℤ) : ℚ)
                  (linkRecordedSq cur p ((linkTimeDiff cur p : ℤ) : ℚ) maxL))
                (linkInitialIndices cur p ((linkTimeDiff cur p : ℤ) : ℚ)
                  maxL)).getD i2 (-1) = (j : ℤ) := by
              rw [← heq]; exact h1
            exact foldl_resolve_unique _ _ _ _ j (List.mem_range.mpr hj)
              i1 i2 h1 h2
        · intro p' hp' i
          cases hp'
          rcases foldl_resolve_getD_cases
              ((linkTimeDiff cur p : ℤ) : ℚ)
              (linkRecordedSq cur p ((linkTimeDiff cur p : ℤ) : ℚ) maxL)
              (List.range p.xCoordsMetres.length)
              (linkInitialIndices cur p ((linkTimeDiff cur p : ℤ) : ℚ)
                maxL) i with h' | h'
          · right; exact h'
          · left; exact h'
        · intro p' hp' hg j hG
          cases hp'
          have hgrpne : linkConflictGroup cur p
              ((linkTimeDiff cur p : ℤ) : ℚ) maxL j ≠ [] := by
            intro h
            rw [h] at hG
            simp at hG
          obtain ⟨g0, hg0⟩ : ∃ g0, g0 ∈ linkConflictGroup cur p
              ((linkTimeDiff cur p : ℤ) : ℚ) maxL j :=
            List.exists_mem_of_ne_nil _ hgrpne
          have hg0f : g0 ∈ (List.range (linkInitialIndices cur p
              ((linkTimeDiff cur p : ℤ) : ℚ) maxL).length).filter fun i =>
              decide ((linkInitialIndices cur p
                ((linkTimeDiff cur p : ℤ) : ℚ) maxL).getD i (-1) =
                (j : ℤ)) := hg0
          have hval : (linkInitialIndices cur p
              ((linkTimeDiff cur p : ℤ) : ℚ) maxL).getD g0 (-1) =
              (j : ℤ) := by
            simpa using (List.mem_filter.mp hg0f).2
          have hjP : j < p.xCoordsMetres.length := by
            rcases linkInitialIndices_getD_cases cur p
                ((linkTimeDiff cur p : ℤ) : ℚ) maxL g0 hnp
              with hc | ⟨j', hj', hcj⟩
            · rw [hc] at hval
              omega
            · rw [hcj] at hval
              have hjj : j' = j := by exact_mod_cast hval
              omega
          exact foldl_resolve_resolves ((linkTimeDiff cur p : ℤ) : ℚ)
            (linkRecordedSq cur p ((linkTimeDiff cur p : ℤ) : ℚ) maxL)
            (List.range p.xCoordsMetres.length)
            (linkInitialIndices cur p ((linkTimeDiff cur p : ℤ) : ℚ) maxL)
            j (List.mem_range.mpr hjP)
            ((List.pairwise_lt_range p.xCoordsMetres.length).imp
              fun h => Nat.ne_of_lt h)
            hG
      · have hrepr : linkLocalMaximaInTime cur (some p) maxT maxL =
            List.replicate cur.xCoordsMetres.length (-1) := by
          simp only [linkLocalMaximaInTime]
          rw [if_neg hgate]
        rw [hrepr]
        refine ⟨?_, ?_, ?_⟩
        · intro i1 i2 _ hne
          exact absurd (getD_replicate_neg _ i1) hne
        · intro p' hp' i
          left
          exact getD_replicate_neg _ i
        · intro p' hp' hg
          cases hp'
          exact absurd hg hgate

/-- Witness for C1 on the overlap fixture: both current maxima initially
select previous maximum 0 (the conflict group is `[0, 1]`), current
maximum 1 -- sitting exactly on the previous maximum, implied speed 0 --
keeps the link, the other is reset to `-1`, and the survivor's implied
speed is smallest in the group. -/
theorem claimC1_link_injective_witness :
    2 ≤ (linkConflictGroup linkCurFix linkPrevFix
      ((linkTimeDiff linkCurFix linkPrevFix : ℤ) : ℚ) 10 0).length ∧
    ∃ s ∈ linkConflictGroup linkCurFix linkPrevFix
        ((linkTimeDiff linkCurFix linkPrevFix : ℤ) : ℚ) 10 0,
      (linkLocalMaximaInTime linkCurFix (some linkPrevFix) 300 10).getD s
          (-1) = ((0 : ℕ) : ℤ) ∧
      (∀ i ∈ linkConflictGroup linkCurFix linkPrevFix
          ((linkTimeDiff linkCurFix linkPrevFix : ℤ) : ℚ) 10 0,
        i ≠ s →
          (linkLocalMaximaInTime linkCurFix (some linkPrevFix) 300 10).getD
            i (-1) = -1) ∧
      (∀ i ∈ linkConflictGroup linkCurFix linkPrevFix
          ((linkTimeDiff linkCurFix linkPrevFix : ℤ) : ℚ) 10 0,
        speedLE ((linkTimeDiff linkCurFix linkPrevFix : ℤ) : ℚ)
          (((linkRecordedSq linkCurFix linkPrevFix
            ((linkTimeDiff linkCurFix linkPrevFix : ℤ) : ℚ) 10).getD s
              none).getD 0)
          (((linkRecordedSq linkCurFix linkPrevFix
            ((linkTimeDiff linkCurFix linkPrevFix : ℤ) : ℚ) 10).getD i
              none).getD 0) = true) :=
  ⟨by decide,
    (claimC1_link_injective linkCurFix (some linkPrevFix) 300 10).2.2
      linkPrevFix rfl (by decide) 0 (by decide)⟩

/-- C6: with no previous snapshot, a too-large time gap, or an empty
snapshot on either side, the Temporal Linker returns all `-1`, of length
the number of current maxima, regardless of positions. -/
theorem claimC6_link_early_return (cur : LinkSnapshot)
    (prev : Option LinkSnapshot) (maxT : ℤ) (maxL : ℚ)
    (h : prev = none ∨ ∃ p : LinkSnapshot, prev = some p ∧
      (cur.xCoordsMetres.length = 0 ∨ p.xCoordsMetres.length = 0 ∨
        maxT < linkTimeDiff cur p)) :
    linkLocalMaximaInTime cur prev maxT maxL =
      List.replicate cur.xCoordsMetres.length (-1) := by
  rcases h with rfl | ⟨p, rfl, hp⟩
  · rfl
  · have hgate : linkGatePasses cur (some p) maxT = false := by
      simp only [linkGatePasses, decide_eq_false_iff_not, not_not]
      exact hp
    simp only [linkLocalMaximaInTime, hgate]
    simp

/-- Witness for C6: a 900-second gap with `max_link_time_seconds = 300`. -/
theorem claimC6_link_early_return_witness :
    ((some
        { xCoordsMetres := [0, 9000], yCoordsMetres := [0, -4444],
          validTimeUnixSec := (1516860000 : ℤ) } :
          Option LinkSnapshot) = none ∨
      ∃ p : LinkSnapshot,
        (some
          { xCoordsMetres := [0, 9000], yCoordsMetres := [0, -4444],
            validTimeUnixSec := (1516860000 : ℤ) } :
            Option LinkSnapshot) = some p ∧
        (([0, 9000] : List ℚ).length = 0 ∨ p.xCoordsMetres.length = 0 ∨
          300 < linkTimeDiff
            { xCoordsMetres := [0, 9000], yCoordsMetres := [0, -4444],
              validTimeUnixSec := 1516860900 } p)) ∧
    linkLocalMaximaInTime
        { xCoordsMetres := [0, 9000], yCoordsMetres := [0, -4444],
          validTimeUnixSec := 1516860900 }
        (some
          { xCoordsMetres := [0, 9000], yCoordsMetres := [0, -4444],
            validTimeUnixSec := 1516860000 }) 300 10 =
      List.replicate 2 (-1) :=
  ⟨Or.inr ⟨_, rfl, Or.inr (Or.inr (by decide))⟩,
    claimC6_link_early_return
      { xCoordsMetres := [0, 9000], yCoordsMetres := [0, -4444],
        validTimeUnixSec := 1516860900 }
      (some
        { xCoordsMetres := [0, 9000], yCoordsMetres := [0, -4444],
          validTimeUnixSec := 1516860000 }) 300 10
      (Or.inr ⟨_, rfl, Or.inr (Or.inr (by decide))⟩)⟩

/-- C10: the time gate excludes only gaps strictly greater than
`max_link_time_seconds`.  For a concrete pair of non-empty snapshots with
equal valid times, the gate passes (linking is attempted) while
`time_diff_seconds` -- the divisor of every implied speed, which the source
never guards -- is zero; with coincident positions, the maximum is in fact
linked across the zero gap. -/
theorem claimC10_zero_gap_division :
    linkGatePasses
        { xCoordsMetres := [5], yCoordsMetres := [5],
          validTimeUnixSec := 100 }
        (some
          { xCoordsMetres := [5], yCoordsMetres := [5],
            validTimeUnixSec := 100 }) 300 = true ∧
    linkTimeDiff
        { xCoordsMetres := [5], yCoordsMetres := [5],
          validTimeUnixSec := 100 }
        { xCoordsMetres := [5], yCoordsMetres := [5],
          validTimeUnixSec := 100 } = 0 ∧
    linkLocalMaximaInTime
        { xCoordsMetres := [5], yCoordsMetres := [5],
          validTimeUnixSec := 100 }
        (some
          { xCoordsMetres := [5], yCoordsMetres := [5],
            validTimeUnixSec := 100 }) 300 50 = [0] := by
  refine ⟨by decide, by decide, by decide⟩

/-! ## Grid Maximum Detector lemmas and claim C7 -/

theorem cellIsMax_iff (g : RadarGrid) (hw r c : ℕ) :
    cellIsMax g hw r c = true ↔
      ∃ v f : ℚ, (g.getD r []).getD c none = some v ∧
        dilatedAt g hw r c = some f ∧ |f - v| < 1 / 1000000 := by
  unfold cellIsMax
  cases hv : (g.getD r []).getD c none with
  | none => simp
  | some v =>
    cases hf : dilatedAt g hw r c with
    | none => simp
    | some f =>
      simp only [decide_eq_true_eq]
      constructor
      · intro h
        exact ⟨v, f, rfl, rfl, h⟩
      · rintro ⟨v', f', hv', hf', h⟩
        cases hv'
        cases hf'
        exact h

/-- C7: `_find_local_maxima` reports a cell iff its value equals the
max-filter (dilation) value at that cell within tolerance `1e-6`; a NaN
cell is never reported; an all-NaN grid produces zero maxima. -/
theorem claimC7_detector_iff (g : RadarGrid) (hw : ℕ) :
    (∀ r c : ℕ, ((r, c) ∈ findLocalMaximaCells g hw ↔
      (r < g.length ∧ c < (g.getD r []).length ∧
        ∃ v f : ℚ, (g.getD r []).getD c none = some v ∧
          dilatedAt g hw r c = some f ∧ |f - v| < 1 / 1000000))) ∧
    (∀ r c : ℕ, (g.getD r []).getD c none = none →
      (r, c) ∉ findLocalMaximaCells g hw) ∧
    ((∀ row ∈ g, ∀ cell ∈ row, cell = none) →
      findLocalMaximaCells g hw = []) := by
  have hmem : ∀ r c : ℕ, ((r, c) ∈ findLocalMaximaCells g hw ↔
      (r < g.length ∧ c < (g.getD r []).length ∧
        ∃ v f : ℚ, (g.getD r []).getD c none = some v ∧
          dilatedAt g hw r c = some f ∧ |f - v| < 1 / 1000000)) := by
    intro r c
    unfold findLocalMaximaCells
    rw [List.mem_flatMap]
    constructor
    · rintro ⟨r', hr', hmem'⟩
      rcases List.mem_map.mp hmem' with ⟨c', hc', hEq⟩
      injection hEq with h1 h2
      subst h1
      subst h2
      rcases List.mem_filter.mp hc' with ⟨hcr, hc_max⟩
      exact ⟨List.mem_range.mp hr', List.mem_range.mp hcr,
        (cellIsMax_iff g hw r' c').mp hc_max⟩
    · rintro ⟨hr, hc, hex⟩
      refine ⟨r, List.mem_range.mpr hr, List.mem_map.mpr
        ⟨c, List.mem_filter.mpr ⟨List.mem_range.mpr hc,
          (cellIsMax_iff g hw r c).mpr hex⟩, rfl⟩⟩
  refine ⟨hmem, ?_, ?_⟩
  · intro r c hnan hin
    rcases ((hmem r c).mp hin).2.2 with ⟨v, f, hv, -, -⟩
    rw [hnan] at hv
    cases hv
  · intro hall
    rw [List.eq_nil_iff_forall_not_mem]
    rintro ⟨r, c⟩ hin
    obtain ⟨hr, hc, v, f, hv, -, -⟩ := (hmem r c).mp hin
    have hrow : g.getD r [] ∈ g := by
      rw [List.getD_eq_getElem g [] hr]
      exact List.getElem_mem _
    have hcell : (g.getD r []).getD c none ∈ g.getD r [] := by
      rw [List.getD_eq_getElem _ none hc]
      exact List.getElem_mem _
    have := hall _ hrow _ hcell
    rw [hv] at this
    cases this

/-- Witness for C7 on an all-NaN grid: zero cells are reported. -/
theorem claimC7_detector_iff_witness :
    (∀ row ∈ ([[none, none], [none]] : RadarGrid), ∀ cell ∈ row,
      cell = none) ∧
    findLocalMaximaCells ([[none, none], [none]] : RadarGrid) 1 = [] :=
  ⟨by decide,
    (claimC7_detector_iff ([[none, none], [none]] : RadarGrid) 1).2.2
      (by decide)⟩

/-! ## Track Reanalyzer claims (C9) -/

/-- C9 counterexample: `_reanalyze_tracks` is not idempotent.  On
`nonIdemFixture` (tracks 0: times 6-7 at lng 1; 1: times 3-4 stationary at
lng 0; 2: times 0-1 moving), with `max_join_time_seconds = 2` and
`max_extrap_error_m_s01 = 1`, the first pass processes track 0 before
track 1 absorbs track 2; the absorption changes track 1's velocity
estimate so that a second pass merges it into track 0 as well: applying
the reanalyzer twice differs from applying it once. -/
theorem claimC9_counterexample :
    reanalyzeTracks 2 1 (reanalyzeTracks 2 1 nonIdemFixture) ≠
      reanalyzeTracks 2 1 nonIdemFixture := by decide

/-- C9 amended: a second pass can merge further in general, but on the
repository's reanalysis fixture (`STORM_OBJECT_TABLE_BEFORE_REANALYSIS`,
where one pass merges B and C into A and leaves ids `{A, D, E}` with no
eligible candidates remaining) applying `_reanalyze_tracks` twice yields
the same table as applying it once. -/
theorem claimC9_amended :
    reanalyzeTracks 2 1000 (reanalyzeTracks 2 1000 reanalysisFixture) =
      reanalyzeTracks 2 1000 reanalysisFixture ∧
    reanalyzeTracks 2 1000 reanalysisFixture =
      { stormIds := [0, 0, 0, 0, 0, 0, 3, 3, 4, 4],
        timesUnixSec := reanalysisFixture.timesUnixSec,
        latsDeg := reanalysisFixture.latsDeg,
        lngsDeg := reanalysisFixture.lngsDeg } := by
  constructor
  · decide
  · decide

/-! ## Track Assembler lemmas and claims C2, C8 -/

theorem asmLookupPrev_false (po : Option (List StormId))
    (cur : List StormId) : asmLookupPrev false po cur = po := rfl

theorem pyGet_some_bounds {α : Type} {l : List α} {k : ℤ} {a : α}
    (h : pyGet l k = some a) : 0 ≤ k + l.length ∧ k < (l.length : ℤ) := by
  unfold pyGet at h
  split at h
  next hk =>
    have hlt : k.toNat < l.length := by
      by_contra hge
      rw [List.get?_eq_none.mpr (not_lt.mp hge)] at h
      cases h
    omega
  next hk =>
    split at h
    next hk2 =>
      have hlt : (k + l.length).toNat < l.length := by
        by_contra hge
        rw [List.get?_eq_none.mpr (not_lt.mp hge)] at h
        cases h
      omega
    next => cases h

theorem pyGet_nonneg {α : Type} (l : List α) (k : ℤ) (d : α) (h0 : 0 ≤ k)
    (hlt : k < (l.length : ℤ)) :
    pyGet l k = some (l.getD k.toNat d) := by
  unfold pyGet
  rw [if_pos h0, List.getD_eq_getElem l d (by omega), List.get?_eq_getElem?,
    List.getElem?_eq_getElem (by omega)]

theorem getD_set_self {α : Type} (l : List α) (i : ℕ) (a d : α)
    (h : i < l.length) : (l.set i a).getD i d = a := by
  rw [List.getD_eq_getElem _ d (by simpa using h)]
  simp [List.getElem_set]

theorem getD_set_ne {α : Type} (l : List α) (i j : ℕ) (a d : α)
    (h : i ≠ j) : (l.set i a).getD j d = l.getD j d := by
  rcases lt_or_le j l.length with hj | hj
  · rw [List.getD_eq_getElem _ d (by simpa using hj),
      List.getD_eq_getElem l d hj]
    simp [List.getElem_set, h]
  · rw [List.getD_eq_default _ d (by simpa using hj),
      List.getD_eq_default l d hj]

theorem asmObjLoop_ok_length (sp : Bool) (po : Option (List StormId))
    (T : ℤ) (cpi : List ℤ) :
    ∀ (js : List ℕ) (cur : List StormId) (st : AsmState)
      (r : List StormId × AsmState),
      asmObjLoop sp po T cpi js cur st = .ok r →
      r.1.length = cur.length := by
  intro js
  induction js with
  | nil =>
    intro cur st r hok
    simp only [asmObjLoop] at hok
    cases hok
    rfl
  | cons j0 js ih =>
    intro cur st r hok
    simp only [asmObjLoop] at hok
    split at hok
    next => cases hok
    next e0 hg0 =>
      split at hok
      · have := ih _ _ _ hok
        rw [this, List.length_set]
      · split at hok
        next => cases hok
        next pids hpids =>
          split at hok
          next => cases hok
          next sid hsid =>
            have := ih _ _ _ hok
            rw [this, List.length_set]

theorem asmObjLoop_ok_bounds (pids : List StormId) (T : ℤ) (cpi : List ℤ) :
    ∀ (js : List ℕ) (cur : List StormId) (st : AsmState)
      (r : List StormId × AsmState),
      asmObjLoop false (some pids) T cpi js cur st = .ok r →
      ∀ j ∈ js, ∀ e : ℤ, pyGet cpi (j : ℤ) = some e →
        e = -1 ∨ (0 ≤ e + (pids.length : ℤ) ∧ e < (pids.length : ℤ)) := by
  intro js
  induction js with
  | nil => intro cur st r _ j hj; cases hj
  | cons j0 js ih =>
    intro cur st r hok j hj e he
    simp only [asmObjLoop, asmLookupPrev_false] at hok
    split at hok
    next hg0 => cases hok
    next e0 hg0 =>
      split at hok
      next h1 =>
        rcases List.mem_cons.mp hj with rfl | hj'
        · left
          rw [hg0] at he
          injection he with hh
          omega
        · exact ih _ _ _ hok j hj' e he
      next h1 =>
        split at hok
        next => cases hok
        next sid hsid =>
          rcases List.mem_cons.mp hj with rfl | hj'
          · right
            rw [hg0] at he
            injection he with hh
            subst hh
            exact pyGet_some_bounds hsid
          · exact ih _ _ _ hok j hj' e he

theorem asmRun_head_bounds (s : AsmSnapshot) (rest : List AsmSnapshot)
    (pids : List StormId) (st : AsmState) (tbl : List (List StormId))
    (hok : asmRun (s :: rest) (some pids) false st = .ok tbl) :
    ∀ j, j < s.latitudesDeg.length →
      ∀ e : ℤ, pyGet s.currentToPrevIndices (j : ℤ) = some e →
        e = -1 ∨ (0 ≤ e + (pids.length : ℤ) ∧ e < (pids.length : ℤ)) := by
  intro j hj e he
  simp only [asmRun] at hok
  split at hok
  next herr => cases hok
  next r hr =>
    exact asmObjLoop_ok_bounds pids s.validTimeUnixSec
      s.currentToPrevIndices _ _ _ _ hr j (List.mem_range.mpr hj) e he

theorem asmRun_ok_bounds :
    ∀ (snaps : List AsmSnapshot) (po : Option (List StormId)) (sp : Bool)
      (st : AsmState) (tbl : List (List StormId)),
      asmRun snaps po sp st = .ok tbl →
      ∀ i : ℕ, ∀ s p : AsmSnapshot, snaps[i + 1]? = some s →
        snaps[i]? = some p → ∀ j, j < s.latitudesDeg.length →
        ∀ e : ℤ, pyGet s.currentToPrevIndices (j : ℤ) = some e →
        e = -1 ∨ (0 ≤ e + (p.latitudesDeg.length : ℤ) ∧
          e < (p.latitudesDeg.length : ℤ)) := by
  intro snaps
  induction snaps with
  | nil =>
    intro po sp st tbl _ i s p hs
    simp at hs
  | cons s0 rest ih =>
    intro po sp st tbl hok i s p hs hp j hj e he
    simp only [asmRun] at hok
    split at hok
    next herr => cases hok
    next r hr =>
      split at hok
      next => cases hok
      next hn0 =>
        split at hok
        next => cases hok
        next tbl' htbl' =>
          cases i with
          | zero =>
            simp only [List.getElem?_cons_succ, List.getElem?_cons_zero]
              at hs hp
            cases hp
            cases rest with
            | nil => simp at hs
            | cons s1 rest' =>
              simp only [List.getElem?_cons_zero] at hs
              cases hs
              have hlen : r.1.length = s0.latitudesDeg.length := by
                have := asmObjLoop_ok_length _ _ _ _ _ _ _ _ hr
                rw [this, List.length_replicate]
              have := asmRun_head_bounds _ _ _ _ _ htbl' j hj e he
              rw [hlen] at this
              exact this
          | succ i' =>
            simp only [List.getElem?_cons_succ] at hs hp
            exact ih _ _ _ _ htbl' i' s p hs hp j hj e he

/-- C8 counterexample: a `current_to_previous_index` entry of `-2` lies
outside `{-1} ∪ [0, P-1]` (here `P = 2`), yet the Track Assembler silently
accepts it: Python's negative indexing wraps `-2` to index `0` of the
previous snapshot, and a complete storm-object table is produced in which
the maximum inherits storm id `(0, 0)` -- the id of previous maximum 0. -/
theorem claimC8_counterexample :
    localMaximaToStormTracks [asmSnapA, asmSnapWrap] =
      .ok
        ({ stormIds := [.mk 0 0, .mk 1 0, .mk 0 0],
           timesUnixSec := [100000, 100000, 100300],
           spcDatesUnixSec := [43200, 43200, 43200],
           centroidLatsDeg := [1, 2, 3],
           centroidLngsDeg := [10, 20, 30] },
         [[.mk 0 0, .mk 1 0], [.mk 0 0]]) := by rfl

/-- C8 amended: for snapshots beyond the first, an entry `e` with
`e ≥ P` or `e < -P` (where `P` is the number of maxima of the preceding
snapshot) makes the Track Assembler raise an IndexError rather than
produce a table; entries in `[-P, -2]`, however, are silently accepted via
Python's negative-index wrap-around, inheriting the id at index `P + e`. -/
theorem claimC8_amended (snaps : List AsmSnapshot) (i : ℕ)
    (s p : AsmSnapshot) (j : ℕ) (e : ℤ)
    (hs : snaps[i + 1]? = some s) (hp : snaps[i]? = some p)
    (hj : j < s.latitudesDeg.length)
    (he : pyGet s.currentToPrevIndices (j : ℤ) = some e)
    (hne : e ≠ -1)
    (hrange : (p.latitudesDeg.length : ℤ) ≤ e ∨
      e + (p.latitudesDeg.length : ℤ) < 0) :
    ∃ msg : String, assembleStormIds snaps = .error msg := by
  cases htot : assembleStormIds snaps with
  | error msg => exact ⟨msg, rfl⟩
  | ok tbl =>
    exfalso
    have hrun : ∃ s0 rest, snaps = s0 :: rest ∧
        asmRun snaps none rest.isEmpty ⟨-1, none⟩ = .ok tbl := by
      cases snaps with
      | nil => simp at hs
      | cons s0 rest =>
        refine ⟨s0, rest, rfl, ?_⟩
        simpa [assembleStormIds] using htot
    obtain ⟨s0, rest, rfl, hok⟩ := hrun
    have := asmRun_ok_bounds _ _ _ _ _ hok i s p hs hp j hj e he
    rcases this with rfl | ⟨h1, h2⟩
    · exact hne rfl
    · omega

/-- Witness for C8 (amended): with the previous snapshot holding 2 maxima,
the out-of-range entry `5` makes the assembler raise. -/
theorem claimC8_amended_witness :
    ([asmSnapA, asmSnapOut][0 + 1]? = some asmSnapOut) ∧
    (5 : ℤ) ≠ -1 ∧
    ((asmSnapA.latitudesDeg.length : ℤ) ≤ 5 ∨
      (5 : ℤ) + asmSnapA.latitudesDeg.length < 0) ∧
    ∃ msg : String,
      assembleStormIds [asmSnapA, asmSnapOut] = .error msg :=
  ⟨by decide, by decide, Or.inl (by decide),
    claimC8_amended [asmSnapA, asmSnapOut] 0 asmSnapOut asmSnapA 0 5
      (by decide) (by decide) (by decide) (by decide) (by decide)
      (Or.inl (by decide))⟩

theorem spcDateIndex_mono {t t' : ℤ} (h : t ≤ t') :
    spcDateIndex t ≤ spcDateIndex t' := by
  unfold spcDateIndex
  exact Int.ediv_le_ediv (by norm_num) (by omega)

theorem dateLE_mono (st : AsmState) {d d' : ℤ} (h : dateLE st d)
    (hdd : d ≤ d') : dateLE st d' :=
  fun D hD => le_trans (h D hD) hdd

theorem createStormId_eq (T N : ℤ) (P : Option ℤ) :
    createStormId T N P =
      (StormId.mk (if P = some (spcDateIndex T) then N + 1 else 0)
          (spcDateIndex T),
        (if P = some (spcDateIndex T) then N + 1 else 0), spcDateIndex T) :=
  rfl

theorem stBound_mint_ne (st : AsmState) (T : ℤ) (id : StormId)
    (hb : stBound st id) (hd : dateLE st (spcDateIndex T)) :
    (createStormId T st.prevNumericIdUsed st.prevSpcDate).1 ≠ id := by
  rw [createStormId_eq]
  obtain ⟨n, d, D, rfl, hP, hcase⟩ := hb
  have hDd := hd D hP
  intro hEq
  injection hEq with h1 h2
  by_cases hDT : D = spcDateIndex T
  · rw [hP, hDT, if_pos rfl] at h1
    omega
  · rw [hP, if_neg (by simpa using hDT)] at h1
    omega

theorem stBound_step (st : AsmState) (T : ℤ) (id : StormId)
    (hb : stBound st id) (hd : dateLE st (spcDateIndex T)) :
    stBound ⟨(createStormId T st.prevNumericIdUsed st.prevSpcDate).2.1,
      some (createStormId T st.prevNumericIdUsed st.prevSpcDate).2.2⟩ id := by
  rw [createStormId_eq]
  dsimp only
  obtain ⟨n, d, D, rfl, hP, hcase⟩ := hb
  have hDd := hd D hP
  refine ⟨n, d, spcDateIndex T, rfl, rfl, ?_⟩
  by_cases hDT : D = spcDateIndex T
  · rw [hP, hDT, if_pos rfl]
    dsimp only
    omega
  · omega

theorem stBound_new (st : AsmState) (T : ℤ) :
    stBound ⟨(createStormId T st.prevNumericIdUsed st.prevSpcDate).2.1,
        some (createStormId T st.prevNumericIdUsed st.prevSpcDate).2.2⟩
      (createStormId T st.prevNumericIdUsed st.prevSpcDate).1 := by
  rw [createStormId_eq]
  exact ⟨_, _, _, rfl, rfl, Or.inr ⟨rfl, le_refl _⟩⟩

theorem dateLE_new (st : AsmState) (T : ℤ) :
    dateLE ⟨(createStormId T st.prevNumericIdUsed st.prevSpcDate).2.1,
        some (createStormId T st.prevNumericIdUsed st.prevSpcDate).2.2⟩
      (spcDateIndex T) := by
  rw [createStormId_eq]
  dsimp only
  intro D hD
  injection hD with hh
  omega

theorem asmObjLoop_cons_neg1 (sp : Bool) (po : Option (List StormId))
    (T : ℤ) (cpi : List ℤ) (j0 : ℕ) (js : List ℕ) (cur : List StormId)
    (st : AsmState) (hg : pyGet cpi (j0 : ℤ) = some (-1)) :
    asmObjLoop sp po T cpi (j0 :: js) cur st =
      asmObjLoop sp po T cpi js
        (cur.set j0 (createStormId T st.prevNumericIdUsed st.prevSpcDate).1)
        ⟨(createStormId T st.prevNumericIdUsed st.prevSpcDate).2.1,
          some (createStormId T st.prevNumericIdUsed st.prevSpcDate).2.2⟩ := by
  simp only [asmObjLoop]
  split
  next h => rw [h] at hg; cases hg
  next e' h =>
    rw [h] at hg
    injection hg with hh
    subst hh
    rw [if_pos rfl]

theorem asmObjLoop_cons_inherit (po : Option (List StormId)) (T : ℤ)
    (cpi : List ℤ) (j0 : ℕ) (js : List ℕ) (cur : List StormId)
    (st : AsmState) (e : ℤ) (pids : List StormId) (sid : StormId)
    (hpo : po = some pids)
    (hg : pyGet cpi (j0 : ℤ) = some e) (hne : ¬ (e = -1))
    (hsid : pyGet pids e = some sid) :
    asmObjLoop false po T cpi (j0 :: js) cur st =
      asmObjLoop false po T cpi js (cur.set j0 sid) st := by
  subst hpo
  simp only [asmObjLoop, asmLookupPrev_false]
  split
  next h => rw [h] at hg; cases hg
  next e' h =>
    rw [h] at hg
    injection hg with hh
    subst hh
    rw [if_neg hne]
    split
    next h2 => rw [h2] at hsid; cases hsid
    next sid' h2 =>
      rw [h2] at hsid
      injection hsid with hh2
      subst hh2
      rfl

theorem asmRun_cons_ok (s : AsmSnapshot) (rest : List AsmSnapshot)
    (po : Option (List StormId)) (sp : Bool) (st : AsmState)
    (r : List StormId × AsmState) (tbl : List (List StormId))
    (hok : asmObjLoop sp po s.validTimeUnixSec s.currentToPrevIndices
      (List.range s.latitudesDeg.length)
      (List.replicate s.latitudesDeg.length StormId.blank) st = .ok r)
    (hn0 : s.latitudesDeg.length ≠ 0)
    (hrec : asmRun rest (some r.1) false r.2 = .ok tbl) :
    asmRun (s :: rest) po sp st = .ok (r.1 :: tbl) := by
  simp only [asmRun]
  split
  next h => rw [h] at hok; cases hok
  next r' h =>
    rw [h] at hok
    injection hok with hh
    subst hh
    rw [if_neg hn0]
    split
    next h2 => rw [h2] at hrec; cases hrec
    next tblr h2 =>
      rw [h2] at hrec
      injection hrec with hh2
      subst hh2
      rfl

theorem asmObjLoop_spec (po : Option (List StormId)) (sp : Bool) (T : ℤ)
    (cpi : List ℤ) :
    ∀ (js : List ℕ) (cur : List StormId) (st : AsmState) (S : List StormId),
      (∀ j ∈ js, ∃ e : ℤ, pyGet cpi (j : ℤ) = some e ∧
        (e = -1 ∨ (sp = false ∧ ∃ pids : List StormId, po = some pids ∧
          0 ≤ e ∧ e < (pids.length : ℤ)))) →
      (∀ j ∈ js, j < cur.length) →
      js.Pairwise (· < ·) →
      (∀ id ∈ S, stBound st id) →
      (∀ pids : List StormId, po = some pids → ∀ id ∈ pids, id ∈ S) →
      dateLE st (spcDateIndex T) →
      ∃ r : List StormId × AsmState,
        asmObjLoop sp po T cpi js cur st = .ok r ∧
        r.1.length = cur.length ∧
        (∀ j : ℕ, j ∉ js → r.1.getD j .blank = cur.getD j .blank) ∧
        (∀ j ∈ js, ∀ e : ℤ, pyGet cpi (j : ℤ) = some e → 0 ≤ e →
          ∀ pids : List StormId, po = some pids →
            r.1.getD j .blank = pids.getD e.toNat .blank) ∧
        (∀ j ∈ js, pyGet cpi (j : ℤ) = some (-1) →
          r.1.getD j .blank ∉ S ∧
          ∀ j' ∈ js, j' < j → r.1.getD j .blank ≠ r.1.getD j' .blank) ∧
        (∀ id ∈ S, stBound r.2 id) ∧
        (∀ j ∈ js, stBound r.2 (r.1.getD j .blank)) ∧
        dateLE r.2 (spcDateIndex T) := by
  intro js
  induction js with
  | nil =>
    intro cur st S hjs hlt hpw hS hpids hd
    exact ⟨(cur, st), rfl, rfl, fun j _ => rfl,
      fun j hj => absurd hj (List.not_mem_nil j),
      fun j hj => absurd hj (List.not_mem_nil j), hS,
      fun j hj => absurd hj (List.not_mem_nil j), hd⟩
  | cons j0 js ih =>
    intro cur st S hjs hlt hpw hS hpids hd
    obtain ⟨e0, he0, hcases⟩ := hjs j0 (List.mem_cons_self j0 js)
    have hj0lt : j0 < cur.length := hlt j0 (List.mem_cons_self j0 js)
    have hpw' : js.Pairwise (· < ·) := (List.pairwise_cons.mp hpw).2
    have hj0tail : j0 ∉ js := by
      intro hmem
      have := (List.pairwise_cons.mp hpw).1 j0 hmem
      omega
    have hjs1 : ∀ j ∈ js, ∃ e : ℤ, pyGet cpi (j : ℤ) = some e ∧
        (e = -1 ∨ (sp = false ∧ ∃ pids : List StormId, po = some pids ∧
          0 ≤ e ∧ e < (pids.length : ℤ))) :=
      fun j hj => hjs j (List.mem_cons_of_mem j0 hj)
    rcases hcases with rfl | ⟨hspf, pids, hpo, he0nn, he0lt⟩
    · obtain ⟨r, hok, hlen, hunt, hinh, hfr, hSp, hasg, hdf⟩ :=
        ih (cur.set j0 (createStormId T st.prevNumericIdUsed st.prevSpcDate).1)
          ⟨(createStormId T st.prevNumericIdUsed st.prevSpcDate).2.1,
            some (createStormId T st.prevNumericIdUsed st.prevSpcDate).2.2⟩
          (S ++ [(createStormId T st.prevNumericIdUsed st.prevSpcDate).1])
          hjs1
          (by
            intro j hj
            rw [List.length_set]
            exact hlt j (List.mem_cons_of_mem j0 hj))
          hpw'
          (by
            intro id hid
            rcases List.mem_append.mp hid with hid | hid
            · exact stBound_step st T id (hS id hid) hd
            · have hid' : id =
                  (createStormId T st.prevNumericIdUsed st.prevSpcDate).1 := by
                simpa using hid
              subst hid'
              exact stBound_new st T)
          (by
            intro ps hps id hid
            exact List.mem_append.mpr (Or.inl (hpids ps hps id hid)))
          (dateLE_new st T)
      refine ⟨r, ?_, ?_, ?_, ?_, ?_, ?_, ?_, hdf⟩
      · rw [asmObjLoop_cons_neg1 sp po T cpi j0 js cur st he0]
        exact hok
      · rw [hlen, List.length_set]
      · intro j hj
        have hjne : j ≠ j0 := fun h => hj (h ▸ List.mem_cons_self j0 js)
        have hjtail : j ∉ js := fun h => hj (List.mem_cons_of_mem j0 h)
        rw [hunt j hjtail, getD_set_ne cur j0 j _ .blank (Ne.symm hjne)]
      · intro j hj e he hge ps hps
        rcases List.mem_cons.mp hj with heq | hj'
        · rw [heq] at he
          rw [he0] at he
          injection he with hh
          exact absurd hge (by omega)
        · exact hinh j hj' e he hge ps hps
      · intro j hj hneg
        rcases List.mem_cons.mp hj with heq | hj'
        · rw [heq]
          have hval : r.1.getD j0 .blank =
              (createStormId T st.prevNumericIdUsed st.prevSpcDate).1 := by
            rw [hunt j0 hj0tail, getD_set_self cur j0 _ .blank hj0lt]
          constructor
          · rw [hval]
            intro hmem
            exact stBound_mint_ne st T _ (hS _ hmem) hd rfl
          · intro j' hjm hlt'
            rcases List.mem_cons.mp hjm with heq' | hjm'
            · rw [heq'] at hlt'
              exact absurd hlt' (lt_irrefl j0)
            · have := (List.pairwise_cons.mp hpw).1 j' hjm'
              exact absurd hlt' (by omega)
        · have h := hfr j hj' hneg
          constructor
          · intro hmem
            exact h.1 (List.mem_append.mpr (Or.inl hmem))
          · intro j' hjm hlt'
            rcases List.mem_cons.mp hjm with heq' | hjm'
            · rw [heq']
              have hval : r.1.getD j0 .blank =
                  (createStormId T st.prevNumericIdUsed st.prevSpcDate).1 := by
                rw [hunt j0 hj0tail, getD_set_self cur j0 _ .blank hj0lt]
              rw [hval]
              intro heq2
              apply h.1
              rw [heq2]
              exact List.mem_append.mpr (Or.inr (List.mem_singleton.mpr rfl))
            · exact h.2 j' hjm' hlt'
      · intro id hid
        exact hSp id (List.mem_append.mpr (Or.inl hid))
      · intro j hj
        rcases List.mem_cons.mp hj with heq | hj'
        · rw [heq]
          have hval : r.1.getD j0 .blank =
              (createStormId T st.prevNumericIdUsed st.prevSpcDate).1 := by
            rw [hunt j0 hj0tail, getD_set_self cur j0 _ .blank hj0lt]
          rw [hval]
          exact hSp _
            (List.mem_append.mpr (Or.inr (List.mem_singleton.mpr rfl)))
        · exact hasg j hj'
    · subst hspf
      have hsid : pyGet pids e0 = some (pids.getD e0.toNat .blank) :=
        pyGet_nonneg pids e0 .blank he0nn he0lt
      have hsidS : pids.getD e0.toNat .blank ∈ S :=
        hpids pids hpo _ (mem_getD pids e0.toNat .blank (by omega))
      obtain ⟨r, hok, hlen, hunt, hinh, hfr, hSp, hasg, hdf⟩ :=
        ih (cur.set j0 (pids.getD e0.toNat .blank)) st S hjs1
          (by
            intro j hj
            rw [List.length_set]
            exact hlt j (List.mem_cons_of_mem j0 hj))
          hpw' hS hpids hd
      refine ⟨r, ?_, ?_, ?_, ?_, ?_, hSp, ?_, hdf⟩
      · rw [asmObjLoop_cons_inherit po T cpi j0 js cur st e0 pids
          (pids.getD e0.toNat .blank) hpo he0 (by omega) hsid]
        exact hok
      · rw [hlen, List.length_set]
      · intro j hj
        have hjne : j ≠ j0 := fun h => hj (h ▸ List.mem_cons_self j0 js)
        have hjtail : j ∉ js := fun h => hj (List.mem_cons_of_mem j0 h)
        rw [hunt j hjtail, getD_set_ne cur j0 j _ .blank (Ne.symm hjne)]
      · intro j hj e he hge ps hps
        rcases List.mem_cons.mp hj with heq | hj'
        · rw [heq] at he ⊢
          rw [he0] at he
          injection he with hh
          rw [hpo] at hps
          injection hps with hh2
          rw [← hh, ← hh2]
          rw [hunt j0 hj0tail, getD_set_self cur j0 _ .blank hj0lt]
        · exact hinh j hj' e he hge ps hps
      · intro j hj hneg
        rcases List.mem_cons.mp hj with heq | hj'
        · rw [heq] at hneg
          rw [he0] at hneg
          injection hneg with hh
          exact absurd he0nn (by omega)
        · have h := hfr j hj' hneg
          refine ⟨h.1, ?_⟩
          intro j' hjm hlt'
          rcases List.mem_cons.mp hjm with heq' | hjm'
          · rw [heq']
            rw [hunt j0 hj0tail, getD_set_self cur j0 _ .blank hj0lt]
            intro heq2
            apply h.1
            rw [heq2]
            exact hsidS
          · exact h.2 j' hjm' hlt'
      · intro j hj
        rcases List.mem_cons.mp hj with heq | hj'
        · rw [heq]
          rw [hunt j0 hj0tail, getD_set_self cur j0 _ .blank hj0lt]
          exact hSp _ hsidS
        · exact hasg j hj'

theorem asmRun_spec :
    ∀ (snaps : List AsmSnapshot) (o : Option ℕ) (po : Option (List StormId))
      (sp : Bool) (st : AsmState) (S : List StormId),
      ValidChain o snaps →
      snaps.Pairwise (fun a b => a.validTimeUnixSec ≤ b.validTimeUnixSec) →
      (∀ m : ℕ, o = some m → ∃ pids : List StormId, po = some pids ∧
        pids.length = m ∧ sp = false) →
      (∀ s1 : AsmSnapshot, snaps.head? = some s1 →
        dateLE st (spcDateIndex s1.validTimeUnixSec)) →
      (∀ id ∈ S, stBound st id) →
      (∀ pids : List StormId, po = some pids → ∀ id ∈ pids, id ∈ S) →
      ∃ tbl : List (List StormId),
        asmRun snaps po sp st = .ok tbl ∧
        tbl.map List.length = snaps.map (fun s => s.latitudesDeg.length) ∧
        (∀ i : ℕ, ∀ s : AsmSnapshot, ∀ ti tp : List StormId,
          snaps[i + 1]? = some s → tbl[i + 1]? = some ti →
          tbl[i]? = some tp →
          ∀ j, j < s.latitudesDeg.length →
          ∀ e : ℤ, pyGet s.currentToPrevIndices (j : ℤ) = some e → 0 ≤ e →
            ti.getD j .blank = tp.getD e.toNat .blank) ∧
        (∀ s' : AsmSnapshot, ∀ t' : List StormId,
          snaps[0]? = some s' → tbl[0]? = some t' →
          ∀ j, j < s'.latitudesDeg.length →
          ∀ e : ℤ, pyGet s'.currentToPrevIndices (j : ℤ) = some e → 0 ≤ e →
          ∀ pids : List StormId, po = some pids →
            t'.getD j .blank = pids.getD e.toNat .blank) ∧
        (∀ i : ℕ, ∀ s : AsmSnapshot, ∀ ti : List StormId,
          snaps[i]? = some s → tbl[i]? = some ti →
          ∀ j, j < s.latitudesDeg.length →
          pyGet s.currentToPrevIndices (j : ℤ) = some (-1) →
            ti.getD j .blank ∉ S ∧
            (∀ i' : ℕ, ∀ ti' : List StormId, i' < i → tbl[i']? = some ti' →
              ti.getD j .blank ∉ ti') ∧
            (∀ j', j' < j → ti.getD j .blank ≠ ti.getD j' .blank)) := by
  intro snaps
  induction snaps with
  | nil =>
    intro o po sp st S _ _ _ _ _ _
    refine ⟨[], rfl, rfl, ?_, ?_, ?_⟩
    · intro i s ti tp hs
      simp at hs
    · intro s' t' hs
      simp at hs
    · intro i s ti hs
      simp at hs
  | cons s0 rest ih =>
    intro o po sp st S hchain hsort hopo hd0 hS hpids
    cases hchain with
    | cons o2 s2 r2 hcl hn0 hent hch =>
      have hjs : ∀ j ∈ List.range s0.latitudesDeg.length, ∃ e : ℤ,
          pyGet s0.currentToPrevIndices (j : ℤ) = some e ∧
          (e = -1 ∨ (sp = false ∧ ∃ pids : List StormId, po = some pids ∧
            0 ≤ e ∧ e < (pids.length : ℤ))) := by
        intro j hj
        have hjn : j < s0.latitudesDeg.length := List.mem_range.mp hj
        have hjc : (j : ℤ) < (s0.currentToPrevIndices.length : ℤ) := by
          rw [hcl]
          exact_mod_cast hjn
        have hpg : pyGet s0.currentToPrevIndices (j : ℤ) =
            some (s0.currentToPrevIndices.getD j 0) := by
          have := pyGet_nonneg s0.currentToPrevIndices (j : ℤ) 0
            (by exact_mod_cast Nat.zero_le j) hjc
          simpa using this
        have hmem : s0.currentToPrevIndices.getD j 0 ∈
            s0.currentToPrevIndices :=
          mem_getD _ _ _ (by omega)
        rcases hent _ hmem with h1 | ⟨m, hm, h2, h3⟩
        · exact ⟨_, hpg, Or.inl h1⟩
        · obtain ⟨pids, hpo, hplen, hspf⟩ := hopo m hm
          refine ⟨_, hpg, Or.inr ⟨hspf, pids, hpo, h2, ?_⟩⟩
          rw [hplen]
          exact h3
      obtain ⟨r, hok, hlen, hunt, hinh, hfr, hSp, hasg, hdf⟩ :=
        asmObjLoop_spec po sp s0.validTimeUnixSec s0.currentToPrevIndices
          (List.range s0.latitudesDeg.length)
          (List.replicate s0.latitudesDeg.length StormId.blank) st S
          hjs
          (by
            intro j hj
            rw [List.length_replicate]
            exact List.mem_range.mp hj)
          (List.pairwise_lt_range s0.latitudesDeg.length)
          hS hpids (hd0 s0 rfl)
      have hrlen : r.1.length = s0.latitudesDeg.length := by
        rw [hlen, List.length_replicate]
      have hS' : ∀ id ∈ S ++ r.1, stBound r.2 id := by
        intro id hid
        rcases List.mem_append.mp hid with hid | hid
        · exact hSp id hid
        · obtain ⟨k, hk, hkv⟩ := getD_of_mem StormId.blank hid
          rw [← hkv]
          exact hasg k (List.mem_range.mpr (by omega))
      have hpids' : ∀ pids : List StormId, some r.1 = some pids →
          ∀ id ∈ pids, id ∈ S ++ r.1 := by
        intro pids hp id hid
        injection hp with hp'
        rw [← hp'] at hid
        exact List.mem_append.mpr (Or.inr hid)
      have hopo' : ∀ m : ℕ, some s0.latitudesDeg.length = some m →
          ∃ pids : List StormId, some r.1 = some pids ∧
            pids.length = m ∧ false = false := by
        intro m hm
        injection hm with hm'
        exact ⟨r.1, rfl, by rw [hrlen]; exact hm', rfl⟩
      have hd0' : ∀ s1 : AsmSnapshot, rest.head? = some s1 →
          dateLE r.2 (spcDateIndex s1.validTimeUnixSec) := by
        intro s1 hs1
        have hmem1 : s1 ∈ rest :=
          List.mem_of_mem_head? (Option.mem_def.mpr hs1)
        have htle : s0.validTimeUnixSec ≤ s1.validTimeUnixSec :=
          (List.pairwise_cons.mp hsort).1 s1 hmem1
        exact dateLE_mono r.2 hdf (spcDateIndex_mono htle)
      obtain ⟨tbl', hrok, hmap', hint', hhead', hfresh'⟩ :=
        ih (some s0.latitudesDeg.length) (some r.1) false r.2 (S ++ r.1)
          hch (List.pairwise_cons.mp hsort).2 hopo' hd0' hS' hpids'
      refine ⟨r.1 :: tbl', ?_, ?_, ?_, ?_, ?_⟩
      · exact asmRun_cons_ok s0 rest po sp st r tbl' hok hn0 hrok
      · simp only [List.map_cons, hmap', hrlen]
      · intro i s ti tp hs ht hp j hj e he hge
        cases i with
        | zero =>
          simp only [List.getElem?_cons_succ, List.getElem?_cons_zero]
            at hs ht hp
          injection hp with hp'
          rw [← hp']
          exact hhead' s ti hs ht j hj e he hge r.1 rfl
        | succ i' =>
          simp only [List.getElem?_cons_succ] at hs ht hp
          exact hint' i' s ti tp hs ht hp j hj e he hge
      · intro s' t' hs' ht' j hj e he hge pids hpo
        simp only [List.getElem?_cons_zero] at hs' ht'
        injection hs' with hsv
        injection ht' with htv
        rw [← hsv] at hj he
        rw [← htv]
        exact hinh j (List.mem_range.mpr hj) e he hge pids hpo
      · intro i s ti hs ht j hj hneg
        cases i with
        | zero =>
          simp only [List.getElem?_cons_zero] at hs ht
          injection hs with hsv
          injection ht with htv
          rw [← hsv] at hj hneg
          rw [← htv]
          have h := hfr j (List.mem_range.mpr hj) hneg
          refine ⟨h.1, ?_, ?_⟩
          · intro i' ti' hi' _
            exact absurd hi' (Nat.not_lt_zero i')
          · intro j' hj'
            exact h.2 j' (List.mem_range.mpr (by omega)) hj'
        | succ i' =>
          simp only [List.getElem?_cons_succ] at hs ht
          have h := hfresh' i' s ti hs ht j hj hneg
          refine ⟨?_, ?_, h.2.2⟩
          · intro hmem
            exact h.1 (List.mem_append.mpr (Or.inl hmem))
          · intro im ti' him hti'
            cases im with
            | zero =>
              simp only [List.getElem?_cons_zero] at hti'
              injection hti' with htiv
              rw [← htiv]
              intro hmem
              exact h.1 (List.mem_append.mpr (Or.inr hmem))
            | succ imm =>
              simp only [List.getElem?_cons_succ] at hti'
              exact h.2.1 imm ti' (by omega) hti'

/-- C2 counterexample: a time-sorted snapshot list whose every
`current_to_previous_index` entry is `-1` (so under the claim every
maximum should simply receive a fresh storm id), on which the Track
Assembler produces no storm-id assignment at all: the first snapshot has
no maxima, and the source's `these_times_unix_sec[0]`
(gridrad_tracking.py line 532) raises an IndexError. -/
theorem claimC2_counterexample :
    [asmSnapEmpty, asmSnapSolo].Pairwise
      (fun a b => a.validTimeUnixSec ≤ b.validTimeUnixSec) ∧
    (∀ s ∈ [asmSnapEmpty, asmSnapSolo],
      ∀ e ∈ s.currentToPrevIndices, e = -1) ∧
    assembleStormIds [asmSnapEmpty, asmSnapSolo] =
      .error "IndexError: empty snapshot" := by
  refine ⟨?_, ?_, rfl⟩
  · decide
  · decide

/-- C2 (amended): for every time-sorted snapshot list in which every
snapshot has at least one maximum and every `current_to_previous_index`
entry is either `-1` or a valid non-negative index into the immediately
preceding snapshot (`ValidChain none`), the Track Assembler succeeds and
its assignment satisfies `AsmAssignSpec`: a linked maximum receives
exactly the storm id assigned to the referenced maximum of the preceding
snapshot, and a maximum with entry `-1` receives a newly minted id
distinct from every id previously assigned in the run. -/
theorem claimC2_amended (snaps : List AsmSnapshot)
    (hchain : ValidChain none snaps)
    (hsort : snaps.Pairwise
      (fun a b => a.validTimeUnixSec ≤ b.validTimeUnixSec)) :
    ∃ tbl : List (List StormId),
      assembleStormIds snaps = .ok tbl ∧ AsmAssignSpec snaps tbl := by
  cases snaps with
  | nil =>
    refine ⟨[], rfl, rfl, ?_, ?_⟩
    · intro i s ti tp hs
      simp at hs
    · intro i s ti hs
      simp at hs
  | cons s0 rest =>
    obtain ⟨tbl, hok, hmap, hint, hhead, hfresh⟩ :=
      asmRun_spec (s0 :: rest) none none rest.isEmpty ⟨-1, none⟩ []
        hchain hsort
        (fun m hm => Option.noConfusion hm)
        (fun s1 _ => fun D hD => Option.noConfusion hD)
        (fun id hid => absurd hid (List.not_mem_nil id))
        (fun pids hp => Option.noConfusion hp)
    refine ⟨tbl, ?_, hmap, hint, ?_⟩
    · show asmRun (s0 :: rest) none rest.isEmpty ⟨-1, none⟩ = .ok tbl
      exact hok
    · intro i s ti hs ht j hj hneg
      have h := hfresh i s ti hs ht j hj hneg
      exact ⟨h.2.1, h.2.2⟩

/-- Witness for C2 (amended): on the two-snapshot fixture whose second
snapshot links its single maximum to previous maximum 0, the assembler
succeeds and meets the assignment contract. -/
theorem claimC2_amended_witness :
    ∃ tbl : List (List StormId),
      assembleStormIds [asmSnapA, asmSnapLink] = .ok tbl ∧
      AsmAssignSpec [asmSnapA, asmSnapLink] tbl :=
  claimC2_amended [asmSnapA, asmSnapLink]
    (ValidChain.cons none asmSnapA [asmSnapLink] (by decide) (by decide)
      (by
        intro e he
        have hev : e = -1 := by simpa [asmSnapA] using he
        exact Or.inl hev)
      (ValidChain.cons (some asmSnapA.latitudesDeg.length) asmSnapLink []
        (by decide) (by decide)
        (by
          intro e he
          have hev : e = 0 := by simpa [asmSnapLink] using he
          subst hev
          exact Or.inr ⟨2, rfl, by decide, by decide⟩)
        (ValidChain.nil (some asmSnapLink.latitudesDeg.length))))
    (by decide)

end GGTracking
